import Mathlib

/-!
# Production-Line simulation: a shallow embedding

This file embeds the core of a production-line simulator in Lean 4 and
proves properties of it.  The embedded code comprises:

* the domain catalog (`FactoryLogic`) of task modes, tasks, products,
  machines and energy sources, with its lookup and feasibility helpers;
* the per-machine execution state machine (`MachineRuntime`) with its
  `start_operation` and `step_power` transitions;
* the `Factory` with `dispatch_operation` and `get_step_power_cost`;
* the immutable snapshot (`FactoryState`) with the feasibility algorithm
  `get_feasible_actions`;
* the Greedy, Rule-Based and Genetic scheduling strategies.

Modelling conventions:

* Python floats are modelled as `Rat`; Python ints as `Nat`/`Int`.
* Python dicts keyed by id are modelled as association lists / record
  lists with `find?` lookup (ids are assumed unique, as the dicts force).
* Python exceptions (KeyError, IndexError, ValueError, AttributeError)
  are modelled by `Option`/`Except`: a `none`/`error` result stands for a
  raised exception, `some`/`ok` for normal return.
* The Python runtime stores *references* to the `Job` and `Operation`
  objects and mutates them in place.  Here the runtime stores their ids
  and the mutation is performed on the factory's job list, on the first
  job / operation carrying that id — exactly the object the Python code
  obtained via `get_job_by_id` / `get_operation_by_id` (first match in
  scan order).
* Python's `random` calls are modelled by explicit oracle parameters: a
  theorem quantifying over the oracle covers every possible sequence of
  random draws.
-/

namespace ProductionLine

/-! ## Data model (`factory_schemas.py`) -/

/-- `TaskMode`: one way to execute a task; `power` lists the power draw of
each step, so `power.length` is the duration. -/
structure TaskMode where
  id : String
  power : List Rat
  deriving DecidableEq

/-- `Task`: a kind of work together with its compatible task-mode ids. -/
structure Task where
  id : String
  task_modes : List String
  deriving DecidableEq

/-- `ProductTask`: one (task, run-count) requirement of a product. -/
structure ProductTask where
  task : String
  runs : Nat
  deriving DecidableEq

/-- `Product`: a manufacturable item and its task requirements. -/
structure Product where
  id : String
  tasks : List ProductTask
  deriving DecidableEq

/-- `EnergySource`: optional price and availability time series. -/
structure EnergySource where
  id : String
  price : Option (List Rat)
  availability : Option (List Rat)
  deriving DecidableEq

/-- `Machine`: a physical resource and the task modes it can execute. -/
structure Machine where
  id : String
  task_modes : List String
  deriving DecidableEq

/-- `Operation`: one run of a task within a job. -/
structure Operation where
  id : String
  task_id : String
  run_index : Nat
  deadline : Option Nat
  started : Bool
  done : Bool
  deriving DecidableEq

/-- `Job`: a request for one product unit, with its operations. -/
structure Job where
  id : String
  product_id : String
  operations : List Operation
  being_processed : Bool
  deadline : Option Nat
  done : Bool
  deriving DecidableEq

/-- `FeasibleAction`: a legal (machine, job, operation, mode) candidate. -/
structure FeasibleAction where
  machine_id : String
  job_id : String
  operation_id : String
  task_mode_id : String
  deriving DecidableEq

/-- `Action`: a committed decision with start and end step. -/
structure Action where
  machine_id : String
  job_id : String
  operation_id : String
  task_mode_id : String
  start_step : Nat
  end_step : Nat
  deriving DecidableEq

/-! ## Domain catalog (`factory_logic_loader.py`, class `FactoryLogic`) -/

/-- `FactoryLogic`: container for the static factory configuration.  The
Python class stores each collection as a dict keyed by id; we keep the
record lists and look ids up with `find?`. -/
structure FactoryLogic where
  task_modes : List TaskMode
  tasks : List Task
  products : List Product
  machines : List Machine
  energy_sources : List EnergySource
  deriving DecidableEq

/-- `FactoryLogic.get_task_mode`: dict lookup; `none` models `KeyError`. -/
def FactoryLogic.get_task_mode (fl : FactoryLogic) (task_mode_id : String) : Option TaskMode :=
  fl.task_modes.find? (fun tm => tm.id == task_mode_id)

/-- `FactoryLogic.get_task`: dict lookup; `none` models `KeyError`. -/
def FactoryLogic.get_task (fl : FactoryLogic) (task_id : String) : Option Task :=
  fl.tasks.find? (fun t => t.id == task_id)

/-- `FactoryLogic.get_machine`: dict lookup; `none` models `KeyError`. -/
def FactoryLogic.get_machine (fl : FactoryLogic) (machine_id : String) : Option Machine :=
  fl.machines.find? (fun m => m.id == machine_id)

/-- `FactoryLogic.get_energy_source`: dict lookup. -/
def FactoryLogic.get_energy_source (fl : FactoryLogic) (energy_source_id : String) :
    Option EnergySource :=
  fl.energy_sources.find? (fun es => es.id == energy_source_id)

/-- `FactoryLogic.get_solar_power_available`: the "Solar" source's
availability at `step`, or `0` when the source / series is missing or
empty (Python truthiness of the list) or the step is past its end. -/
def FactoryLogic.get_solar_power_available (fl : FactoryLogic) (step : Nat) : Rat :=
  match fl.get_energy_source "Solar" with
  | some solar =>
    match solar.availability with
    | some avail =>
      if avail.isEmpty then 0
      else if step < avail.length then avail.getD step 0 else 0
    | none => 0
  | none => 0

/-- `FactoryLogic.get_grid_power_cost`: the "Socket Energy" source's price
at `step`, or `0` when the source / series is missing or empty or the step
is past its end. -/
def FactoryLogic.get_grid_power_cost (fl : FactoryLogic) (step : Nat) : Rat :=
  match fl.get_energy_source "Socket Energy" with
  | some grid =>
    match grid.price with
    | some price =>
      if price.isEmpty then 0
      else if step < price.length then price.getD step 0 else 0
    | none => 0
  | none => 0

/-- `FactoryLogic.get_feasible_task_modes`: the intersection of the
machine's modes with the operation's task's modes; empty when either id
is unknown.  The Python code returns `list(set(...) & set(...))` whose
iteration order is unspecified; we fix the order of the machine's mode
list (first occurrences). -/
def FactoryLogic.get_feasible_task_modes (fl : FactoryLogic) (machine_id : String)
    (operation : Operation) : List String :=
  match fl.get_machine machine_id, fl.get_task operation.task_id with
  | some machine, some task =>
    machine.task_modes.dedup.filter (fun mode_id => task.task_modes.contains mode_id)
  | _, _ => []

/-! ## In-place mutation of jobs and operations

The Python runtime mutates `job.being_processed`, `operation.started` and
`operation.done` through stored references.  The referenced objects are
the first job / first operation (scanning jobs in order, operations in
order) with the given id, so we model the mutation as an update of that
first match inside the factory's job list. -/

/-- Set `being_processed` of the first job with the given id. -/
def markJobProcessed (jobs : List Job) (job_id : String) (b : Bool) : List Job :=
  match jobs with
  | [] => []
  | j :: rest =>
    if j.id == job_id then { j with being_processed := b } :: rest
    else j :: markJobProcessed rest job_id b

/-- Set `started` of the first operation with the given id in a list of
operations; the second component reports whether a match was found. -/
def markOpStartedInOps (ops : List Operation) (operation_id : String) :
    List Operation × Bool :=
  match ops with
  | [] => ([], false)
  | op :: rest =>
    if op.id == operation_id then ({ op with started := true } :: rest, true)
    else
      (op :: (markOpStartedInOps rest operation_id).1,
       (markOpStartedInOps rest operation_id).2)

/-- Set `done` of the first operation with the given id in a list of
operations; the second component reports whether a match was found. -/
def markOpDoneInOps (ops : List Operation) (operation_id : String) :
    List Operation × Bool :=
  match ops with
  | [] => ([], false)
  | op :: rest =>
    if op.id == operation_id then ({ op with done := true } :: rest, true)
    else
      (op :: (markOpDoneInOps rest operation_id).1,
       (markOpDoneInOps rest operation_id).2)

/-- Set `started` of the first operation (across jobs in scan order) with
the given id. -/
def markOperationStarted (jobs : List Job) (operation_id : String) : List Job :=
  match jobs with
  | [] => []
  | j :: rest =>
    if (markOpStartedInOps j.operations operation_id).2 then
      { j with operations := (markOpStartedInOps j.operations operation_id).1 } :: rest
    else j :: markOperationStarted rest operation_id

/-- Set `done` of the first operation (across jobs in scan order) with
the given id. -/
def markOperationDone (jobs : List Job) (operation_id : String) : List Job :=
  match jobs with
  | [] => []
  | j :: rest =>
    if (markOpDoneInOps j.operations operation_id).2 then
      { j with operations := (markOpDoneInOps j.operations operation_id).1 } :: rest
    else j :: markOperationDone rest operation_id

/-! ## Machine runtime (`machine_runtime.py`) -/

/-- `MachineRuntime`: execution state of one machine.  The Python object
stores `job` / `operation` / `power_sequence` references (or `None`); we
store the ids.  `remaining_operation_steps` is a Python int, hence `Int`. -/
structure MachineRuntime where
  busy : Bool
  machine_id : String
  job_id : Option String
  operation_id : Option String
  power_sequence : Option (List Rat)
  remaining_operation_steps : Int
  operation_step : Nat
  deriving DecidableEq

/-- `MachineRuntime.__init__`. -/
def MachineRuntime.init (machine_id : String) : MachineRuntime :=
  { busy := false
    machine_id := machine_id
    job_id := none
    operation_id := none
    power_sequence := none
    remaining_operation_steps := 0
    operation_step := 0 }

/-- `MachineRuntime.start_operation`: start a new operation on this
machine.  Sets the runtime fields and mutates the referenced job
(`being_processed := true`) and operation (`started := true`) inside the
given job list. -/
def MachineRuntime.start_operation (m : MachineRuntime) (job_id operation_id : String)
    (power_sequence : List Rat) (jobs : List Job) : MachineRuntime × List Job :=
  ({ m with
      busy := true
      job_id := some job_id
      operation_id := some operation_id
      power_sequence := some power_sequence
      remaining_operation_steps := (power_sequence.length : Int)
      operation_step := 0 },
   markOperationStarted (markJobProcessed jobs job_id true) operation_id)

/-- `MachineRuntime._reset`: return to idle, releasing all references. -/
def MachineRuntime.reset (m : MachineRuntime) : MachineRuntime :=
  { m with
      busy := false
      job_id := none
      operation_id := none
      power_sequence := none
      remaining_operation_steps := 0
      operation_step := 0 }

/-- `MachineRuntime.step_power`: power consumption for this step.

Returns `(power, runtime, jobs)`; `none` models a raised exception (an
`IndexError` when the cursor is out of range, or an `AttributeError` when
the completion branch dereferences a missing job/operation reference). -/
def MachineRuntime.step_power (m : MachineRuntime) (jobs : List Job) :
    Option (Rat × MachineRuntime × List Job) :=
  match m.power_sequence with
  | none => some (0, m, jobs)
  | some ps =>
    if m.busy = false then some (0, m, jobs)
    else
      match ps[m.operation_step]? with
      | none => none
      | some power =>
        let remaining := m.remaining_operation_steps - 1
        if remaining = 0 then
          match m.job_id, m.operation_id with
          | some jid, some oid =>
            some (power, m.reset, markOperationDone (markJobProcessed jobs jid false) oid)
          | _, _ => none
        else
          some (power,
            { m with
                operation_step := m.operation_step + 1
                remaining_operation_steps := remaining },
            jobs)

/-- The spec's machine-runtime invariant:
`busy ⇔ (non-empty power sequence ∧ remaining-steps > 0)`. -/
def MachineRuntime.invariant (m : MachineRuntime) : Bool :=
  m.busy == (match m.power_sequence with
             | some ps => !ps.isEmpty && decide (0 < m.remaining_operation_steps)
             | none => false)

/-! ## Factory (`factory.py`) -/

/-- `Factory`: the mutable simulation state. -/
structure Factory where
  factory_logic : FactoryLogic
  jobs : List Job
  current_step : Nat
  machine_runtimes_map : List (String × MachineRuntime)
  deriving DecidableEq

/-- `Factory.get_job_by_id`: first job with the given id; `none` models
the raised `ValueError`. -/
def Factory.get_job_by_id (f : Factory) (job_id : String) : Option Job :=
  f.jobs.find? (fun j => j.id == job_id)

/-- `Factory.get_operation_by_id`: first operation with the given id,
scanning jobs in order; `none` models the raised `ValueError`. -/
def Factory.get_operation_by_id (f : Factory) (operation_id : String) : Option Operation :=
  (f.jobs.flatMap (fun j => j.operations)).find? (fun op => op.id == operation_id)

/-- `Factory.get_step_power_cost`: grid cost of the power consumed in one
step — buy `power_consumed − solar` at the grid price when positive,
otherwise pay nothing. -/
def Factory.get_step_power_cost (f : Factory) (power_consumed : Rat) (step : Nat) : Rat :=
  let solar_power_available := f.factory_logic.get_solar_power_available step
  let grid_power_cost := f.factory_logic.get_grid_power_cost step
  let kwh_needed := power_consumed - solar_power_available
  if 0 < kwh_needed then kwh_needed * grid_power_cost else 0

/-- The distinct errors `Factory.dispatch_operation` can signal.  Each
constructor corresponds to one `raise` site (`ValueError` messages or
`KeyError` from the catalog lookups). -/
inductive DispatchError where
  | jobNotFound (job_id : String)
  | jobBeingProcessed (job_id : String)
  | operationNotFound (operation_id : String)
  | taskNotFound (task_id : String)
  | taskModeNotAvailable (task_mode_id : String) (task_id : String)
  | taskModeNotFound (task_mode_id : String)
  | machineNotFound (machine_id : String)
  | machineBusy (machine_id : String)
  | operationDone (operation_id : String)
  | operationStarted (operation_id : String)
  deriving DecidableEq

/-- Replace the runtime stored under a machine id (dict assignment). -/
def setRuntime (mrs : List (String × MachineRuntime)) (machine_id : String)
    (rt : MachineRuntime) : List (String × MachineRuntime) :=
  mrs.map (fun p => if p.1 == machine_id then (p.1, rt) else p)

/-- `Factory.dispatch_operation`: validate and start an operation on a
machine.  The checks appear in source order; any failure aborts with its
distinct error before any state is mutated. -/
def Factory.dispatch_operation (f : Factory) (machine_id job_id operation_id task_mode_id :
    String) : Except DispatchError Factory :=
  match f.get_job_by_id job_id with
  | none => .error (.jobNotFound job_id)
  | some job =>
    if job.being_processed then .error (.jobBeingProcessed job_id)
    else
      match f.get_operation_by_id operation_id with
      | none => .error (.operationNotFound operation_id)
      | some operation =>
        match f.factory_logic.get_task operation.task_id with
        | none => .error (.taskNotFound operation.task_id)
        | some task =>
          if task.task_modes.contains task_mode_id = false then
            .error (.taskModeNotAvailable task_mode_id operation.task_id)
          else
            match f.factory_logic.get_task_mode task_mode_id with
            | none => .error (.taskModeNotFound task_mode_id)
            | some task_mode =>
              let power_sequence := task_mode.power
              if ((f.machine_runtimes_map.any (fun p => p.1 == machine_id)) &&
                  (f.factory_logic.machines.any (fun m => m.id == machine_id))) = false then
                .error (.machineNotFound machine_id)
              else
                match f.machine_runtimes_map.find? (fun p => p.1 == machine_id) with
                | none => .error (.machineNotFound machine_id)
                | some (_, machine_runtime) =>
                  if machine_runtime.busy then .error (.machineBusy machine_id)
                  else if operation.done then .error (.operationDone operation.id)
                  else if operation.started then .error (.operationStarted operation.id)
                  else
                    let (rt2, jobs2) :=
                      machine_runtime.start_operation job.id operation.id power_sequence f.jobs
                    .ok { f with
                            jobs := jobs2
                            machine_runtimes_map :=
                              setRuntime f.machine_runtimes_map machine_id rt2 }

/-! ## Factory state snapshot (`factory_state.py`) -/

/-- `FactoryState`: immutable snapshot of a `Factory`.  `jobs` holds the
deep-copied jobs, `machine_busy` the per-machine busy flags.  The cached
`steps_until_end_of_day` field is filled from
`get_steps_until_end_of_day` at construction. -/
structure FactoryState where
  current_step : Nat
  steps_until_end_of_day : Nat
  jobs : List Job
  factory_logic : FactoryLogic
  machine_busy : List (String × Bool)
  deriving DecidableEq

/-- `FactoryState.get_steps_until_end_of_day`: steps left in the current
day of fixed length 192. -/
def FactoryState.get_steps_until_end_of_day (s : FactoryState) : Nat :=
  let day_length := 192
  let steps_today := s.current_step % day_length
  day_length - steps_today

/-- `FactoryState.__init__` built from a `Factory` (deep copy of jobs,
busy flags extracted from the runtimes). -/
def FactoryState.ofFactory (f : Factory) : FactoryState :=
  let s0 : FactoryState :=
    { current_step := f.current_step
      steps_until_end_of_day := 0
      jobs := f.jobs
      factory_logic := f.factory_logic
      machine_busy := f.machine_runtimes_map.map (fun p => (p.1, p.2.busy)) }
  { s0 with steps_until_end_of_day := s0.get_steps_until_end_of_day }

/-- `Factory.get_factory_state`. -/
def Factory.get_factory_state (f : Factory) : FactoryState :=
  FactoryState.ofFactory f

/-- `FactoryState.is_machine_busy`: `dict.get(machine_id, False)`. -/
def FactoryState.is_machine_busy (s : FactoryState) (machine_id : String) : Bool :=
  match s.machine_busy.find? (fun p => p.1 == machine_id) with
  | some p => p.2
  | none => false

/-- `FactoryState.machine_ids`: the keys of the busy-flag dict. -/
def FactoryState.machine_ids (s : FactoryState) : List String :=
  s.machine_busy.map (fun p => p.1)

/-- The deadline filter of `_get_feasible_actions_for_operation`: keep the
modes whose duration fits before the deadline.  Each kept or dropped mode
is looked up in the catalog; a failed lookup is a raised `KeyError`
(`none`). -/
def filterModesDeadline (fl : FactoryLogic) (current_step deadline : Nat) :
    List String → Option (List String)
  | [] => some []
  | mode_id :: rest =>
    match fl.get_task_mode mode_id with
    | none => none
    | some tm =>
      match filterModesDeadline fl current_step deadline rest with
      | none => none
      | some rest2 =>
        some (if current_step + tm.power.length ≤ deadline then mode_id :: rest2 else rest2)

/-- The end-of-day filter of `_get_feasible_actions_for_operation`: keep
the modes whose duration fits in the remaining day. -/
def filterModesEndOfDay (fl : FactoryLogic) (steps_until_end_of_day : Nat) :
    List String → Option (List String)
  | [] => some []
  | mode_id :: rest =>
    match fl.get_task_mode mode_id with
    | none => none
    | some tm =>
      match filterModesEndOfDay fl steps_until_end_of_day rest with
      | none => none
      | some rest2 =>
        some (if tm.power.length ≤ steps_until_end_of_day then mode_id :: rest2 else rest2)

/-- `FactoryState._get_feasible_actions_for_operation`: feasibility logic
for a single operation on a single machine. -/
def FactoryState.get_feasible_actions_for_operation (s : FactoryState) (machine_id : String)
    (job : Job) (operation : Operation) : Option (List FeasibleAction) :=
  if job.being_processed || job.done then some []
  else if operation.done || operation.started then some []
  else if (match operation.deadline with
           | some deadline => decide (deadline < s.current_step)
           | none => false) then some []
  else
    let feasible_task_mode_ids := s.factory_logic.get_feasible_task_modes machine_id operation
    if feasible_task_mode_ids.isEmpty then some []
    else
      match (match operation.deadline with
             | some deadline =>
               filterModesDeadline s.factory_logic s.current_step deadline feasible_task_mode_ids
             | none => some feasible_task_mode_ids) with
      | none => none
      | some modes1 =>
        let steps_until_end_of_day := s.get_steps_until_end_of_day
        match (if steps_until_end_of_day < 50 then
                 filterModesEndOfDay s.factory_logic steps_until_end_of_day modes1
               else some modes1) with
        | none => none
        | some modes2 =>
          some (modes2.map (fun task_mode_id =>
            { machine_id := machine_id
              job_id := job.id
              operation_id := operation.id
              task_mode_id := task_mode_id }))

/-- The inner loop of `get_feasible_actions` over one job's operations,
concatenating the per-operation results. -/
def FactoryState.feasibleOverOps (s : FactoryState) (machine_id : String) (job : Job) :
    List Operation → Option (List FeasibleAction)
  | [] => some []
  | op :: rest =>
    match s.get_feasible_actions_for_operation machine_id job op with
    | none => none
    | some here =>
      match s.feasibleOverOps machine_id job rest with
      | none => none
      | some there => some (here ++ there)

/-- The outer loop of `get_feasible_actions` over all jobs. -/
def FactoryState.feasibleOverJobs (s : FactoryState) (machine_id : String) :
    List Job → Option (List FeasibleAction)
  | [] => some []
  | job :: rest =>
    match s.feasibleOverOps machine_id job job.operations with
    | none => none
    | some here =>
      match s.feasibleOverJobs machine_id rest with
      | none => none
      | some there => some (here ++ there)

/-- `FactoryState.get_feasible_actions`: all feasible actions for a
machine — empty when the machine is busy, otherwise the concatenation of
the per-operation feasibility results over all jobs in order. -/
def FactoryState.get_feasible_actions (s : FactoryState) (machine_id : String) :
    Option (List FeasibleAction) :=
  if s.is_machine_busy machine_id then some []
  else s.feasibleOverJobs machine_id s.jobs

/-! ## Greedy scheduler (`greedy_scheduler.py`) -/

/-- Pair each element with its key, failing (`none`) when any key raises.
Python's `min`/`max` evaluate the key on every element. -/
def withKeys {α β : Type} (key : α → Option β) : List α → Option (List (α × β))
  | [] => some []
  | x :: rest =>
    match key x, withKeys key rest with
    | some k, some ps => some ((x, k) :: ps)
    | _, _ => none

/-- Python `min(l, key=...)`: the first element attaining the minimal key
(later elements replace only on a strictly smaller key). -/
def pickMinPair {α β : Type} [LinearOrder β] : List (α × β) → Option (α × β)
  | [] => none
  | p :: rest => some (rest.foldl (fun best q => if q.2 < best.2 then q else best) p)

/-- Python `max(l, key=...)`: the first element attaining the maximal key
(later elements replace only on a strictly greater key). -/
def pickMaxPair {α β : Type} [LinearOrder β] : List (α × β) → Option (α × β)
  | [] => none
  | p :: rest => some (rest.foldl (fun best q => if best.2 < q.2 then q else best) p)

/-- `min(l, key=key)` with a possibly raising key function. -/
def pyMinBy {α β : Type} [LinearOrder β] (key : α → Option β) (l : List α) : Option α :=
  match withKeys key l with
  | none => none
  | some ps =>
    match pickMinPair ps with
    | none => none
    | some p => some p.1

/-- `max(l, key=key)` with a possibly raising key function. -/
def pyMaxBy {α β : Type} [LinearOrder β] (key : α → Option β) (l : List α) : Option α :=
  match withKeys key l with
  | none => none
  | some ps =>
    match pickMaxPair ps with
    | none => none
    | some p => some p.1

/-- `GreedyScheduler` configuration: the greedy metric, kept as the
string the Python constructor stores. -/
structure GreedyScheduler where
  greedy_type : String
  deriving DecidableEq

/-- The total-power key: `sum(get_task_mode(a.task_mode_id).power)`. -/
def powerKey (s : FactoryState) (a : FeasibleAction) : Option Rat :=
  (s.factory_logic.get_task_mode a.task_mode_id).map (fun tm => tm.power.sum)

/-- The duration key: `len(get_task_mode(a.task_mode_id).power)`. -/
def stepsKey (s : FactoryState) (a : FeasibleAction) : Option Nat :=
  (s.factory_logic.get_task_mode a.task_mode_id).map (fun tm => tm.power.length)

/-- `GreedyScheduler._choose_greedy_action_for_machine`: pick the extremal
feasible action under the configured metric and convert it to an
`Action`.  The outer `Option` models raised exceptions, the inner the
Python `None` result. -/
def GreedyScheduler.choose_greedy_action_for_machine (g : GreedyScheduler)
    (factory_state : FactoryState) (machine_id : String)
    (feasible_actions : List FeasibleAction) : Option (Option Action) :=
  if feasible_actions.isEmpty then some none
  else
    let best :=
      if g.greedy_type == "min_power" then
        (pyMinBy (powerKey factory_state) feasible_actions).map some
      else if g.greedy_type == "min_steps" then
        (pyMinBy (stepsKey factory_state) feasible_actions).map some
      else if g.greedy_type == "max_power" then
        (pyMaxBy (powerKey factory_state) feasible_actions).map some
      else if g.greedy_type == "max_steps" then
        (pyMaxBy (stepsKey factory_state) feasible_actions).map some
      else some none
    match best with
    | none => none
    | some none => some none
    | some (some best_action) =>
      match factory_state.factory_logic.get_task_mode best_action.task_mode_id with
      | none => none
      | some task_mode =>
        some (some
          { machine_id := machine_id
            job_id := best_action.job_id
            operation_id := best_action.operation_id
            task_mode_id := best_action.task_mode_id
            start_step := factory_state.current_step
            end_step := factory_state.current_step + task_mode.power.length })

/-- The per-machine loop of `GreedyScheduler.choose`, threading the set of
job ids already claimed this step.  Python precomputes every machine's
feasible actions before the loop; since the snapshot is immutable the
in-loop computation here returns the same map (and fails exactly when the
Python version raises). -/
def GreedyScheduler.choose_loop (g : GreedyScheduler) (factory_state : FactoryState) :
    List String → List String → Option (List (String × Option Action))
  | _, [] => some []
  | used_jobs, machine_id :: rest =>
    match factory_state.get_feasible_actions machine_id with
    | none => none
    | some feasible =>
      let available := feasible.filter (fun fa => !(used_jobs.contains fa.job_id))
      if available.isEmpty then
        match g.choose_loop factory_state used_jobs rest with
        | none => none
        | some res => some ((machine_id, none) :: res)
      else
        match g.choose_greedy_action_for_machine factory_state machine_id available with
        | none => none
        | some none =>
          match g.choose_loop factory_state used_jobs rest with
          | none => none
          | some res => some ((machine_id, none) :: res)
        | some (some chosen_action) =>
          match g.choose_loop factory_state (chosen_action.job_id :: used_jobs) rest with
          | none => none
          | some res => some ((machine_id, some chosen_action) :: res)

/-- `GreedyScheduler.choose`: one action per machine, no job claimed
twice within the call. -/
def GreedyScheduler.choose (g : GreedyScheduler) (factory_state : FactoryState) :
    Option (List (String × Option Action)) :=
  if factory_state.jobs.isEmpty then some []
  else g.choose_loop factory_state [] factory_state.machine_ids

/-! ## Rule-based scheduler (`rule_based_scheduler.py`) -/

/-- `RuleBasedScheduler` configuration. -/
structure RuleBasedScheduler where
  urgent_window : Int
  caution_window : Int
  prefer_low_power : Bool
  deriving DecidableEq

/-- The lexicographic score tuple
`(urgency_bucket, slack, remaining_ops, energy_score, duration,
operation_id)`; `slack` is a Python float that may be `inf`, modelled by
`WithTop Int` (`⊤` = `inf`). -/
def Score : Type :=
  Nat ×ₗ (WithTop Int ×ₗ (Nat ×ₗ (Rat ×ₗ (Nat ×ₗ String))))

instance : LinearOrder Score := by
  unfold Score; infer_instance

instance : DecidableEq Score := by
  unfold Score; infer_instance

/-- `RuleBasedScheduler._score_action`: score one feasible action for
lexicographic comparison (lower is preferred).  `none` models the
`KeyError` of the task-mode lookup. -/
def RuleBasedScheduler.score_action (r : RuleBasedScheduler) (factory_state : FactoryState)
    (job : Job) (feasible_action : FeasibleAction) : Option Score :=
  match factory_state.factory_logic.get_task_mode feasible_action.task_mode_id with
  | none => none
  | some task_mode =>
    let duration := task_mode.power.length
    let total_power := task_mode.power.sum
    let remaining_ops := (job.operations.filter (fun op => !op.done)).length
    let slack_urgency : WithTop Int × Nat :=
      match job.deadline with
      | none => (⊤, 3)
      | some deadline =>
        let slack : Int := (deadline : Int) - ((factory_state.current_step : Int) + duration)
        (some slack,
         if slack ≤ 0 then 0
         else if slack ≤ r.urgent_window then 0
         else if slack ≤ r.caution_window then 1
         else 2)
    let energy_score : Rat := if r.prefer_low_power then total_power else -total_power
    some (toLex (slack_urgency.2, toLex (slack_urgency.1, toLex (remaining_ops,
      toLex (energy_score, toLex (duration, feasible_action.operation_id))))))

/-- Score every action, looking its job up in the snapshot's jobs (the
Python `job_lookup[action.job_id]`; a missing job is a `KeyError`). -/
def scoreAll (r : RuleBasedScheduler) (factory_state : FactoryState) :
    List FeasibleAction → Option (List (FeasibleAction × Score))
  | [] => some []
  | fa :: rest =>
    match factory_state.jobs.find? (fun j => j.id == fa.job_id) with
    | none => none
    | some job =>
      match r.score_action factory_state job fa, scoreAll r factory_state rest with
      | some sc, some ps => some ((fa, sc) :: ps)
      | _, _ => none

/-- `RuleBasedScheduler._select_best_action`:
`sorted(feasible_actions, key=score)[0]` — the first action attaining the
minimal score under the stable sort. -/
def RuleBasedScheduler.select_best_action (r : RuleBasedScheduler)
    (factory_state : FactoryState) (feasible_actions : List FeasibleAction) :
    Option (Option FeasibleAction) :=
  if feasible_actions.isEmpty then some none
  else
    match scoreAll r factory_state feasible_actions with
    | none => none
    | some scored =>
      match pickMinPair scored with
      | none => none
      | some p => some (some p.1)

/-- The per-machine loop of `RuleBasedScheduler.choose`, threading the
jobs claimed this step. -/
def RuleBasedScheduler.choose_loop (r : RuleBasedScheduler) (factory_state : FactoryState) :
    List String → List String → Option (List (String × Option Action))
  | _, [] => some []
  | claimed, machine_id :: rest =>
    match factory_state.get_feasible_actions machine_id with
    | none => none
    | some feasible =>
      let available := feasible.filter (fun fa => !(claimed.contains fa.job_id))
      if available.isEmpty then
        match r.choose_loop factory_state claimed rest with
        | none => none
        | some res => some ((machine_id, none) :: res)
      else
        match r.select_best_action factory_state available with
        | none => none
        | some none =>
          match r.choose_loop factory_state claimed rest with
          | none => none
          | some res => some ((machine_id, none) :: res)
        | some (some best_feasible) =>
          match factory_state.factory_logic.get_task_mode best_feasible.task_mode_id with
          | none => none
          | some task_mode =>
            let action : Action :=
              { machine_id := machine_id
                job_id := best_feasible.job_id
                operation_id := best_feasible.operation_id
                task_mode_id := best_feasible.task_mode_id
                start_step := factory_state.current_step
                end_step := factory_state.current_step + task_mode.power.length }
            match r.choose_loop factory_state (action.job_id :: claimed) rest with
            | none => none
            | some res => some ((machine_id, some action) :: res)

/-- `RuleBasedScheduler.choose`: rank feasible actions per machine by the
rule-based score; a job is claimed by at most one machine per tick. -/
def RuleBasedScheduler.choose (r : RuleBasedScheduler) (factory_state : FactoryState) :
    Option (List (String × Option Action)) :=
  if factory_state.jobs.isEmpty then some []
  else r.choose_loop factory_state [] factory_state.machine_ids

/-! ## Genetic scheduler (`genetic_scheduler.py`)

The random draws of the genetic algorithm are modelled by explicit
oracles: `schedule` takes the evaluated initial population (the result of
`_initialize_population` + the first fitness-evaluation loop, which is
random) and a child oracle producing, for generation `gen` and slot `i`,
the evaluated individual that the selection/crossover/mutation block
would append.  Theorems quantify over both oracles, hence over every
possible sequence of random outcomes. -/

/-- `Individual`: a scheduling solution.  `total_cost`/`makespan` start at
`float('inf')`, modelled by `none`. -/
structure Individual where
  genome : List (String × String × String)
  fitness : Rat
  actions : List Action
  total_cost : Option Rat
  makespan : Option Rat
  deriving DecidableEq

/-- `Individual.__init__(genome, fitness=0.0)`. -/
def Individual.init (genome : List (String × String × String)) : Individual :=
  { genome := genome
    fitness := 0
    actions := []
    total_cost := none
    makespan := none }

/-- `GeneticScheduler` configuration. -/
structure GeneticScheduler where
  population_size : Nat
  generations : Nat
  mutation_rate : Rat
  elitism_count : Nat
  deriving DecidableEq

/-- `random.randint(a, b)`: a uniform draw from `[a, b]`, raising
`ValueError` (`none`) when the range is empty.  The oracle value `r`
selects the draw. -/
def pyRandint (r : Nat) (a b : Int) : Option Int :=
  if b < a then none else some (a + ((r : Int) % (b - a + 1)))

/-- `GeneticScheduler._crossover`: single-point crossover.  A parent with
an empty genome short-circuits to a copy of `parent1`; otherwise the cut
index is `randint(1, min(len₁, len₂) − 1)`. -/
def GeneticScheduler.crossover (r : Nat) (parent1 parent2 : Individual) :
    Option Individual :=
  if parent1.genome.length = 0 ∨ parent2.genome.length = 0 then
    some (Individual.init parent1.genome)
  else
    match pyRandint r 1 ((min parent1.genome.length parent2.genome.length : Int) - 1) with
    | none => none
    | some crossover_point =>
      some (Individual.init
        (parent1.genome.take crossover_point.toNat ++
         parent2.genome.drop crossover_point.toNat))

/-- Python `max(population, key=lambda ind: ind.fitness)`: the first
individual attaining the maximal fitness; raises (`none`) on an empty
population. -/
def maxByFitness : List Individual → Option Individual
  | [] => none
  | x :: rest =>
    some (rest.foldl (fun best y => if best.fitness < y.fitness then y else best) x)

/-- Descending fitness comparison used by
`population.sort(key=..., reverse=True)`. -/
def fitnessGe (a b : Individual) : Bool :=
  decide (b.fitness ≤ a.fitness)

/-- Stable insertion into a descending-by-fitness list: an element moves
past another only when its fitness is strictly greater, so equal-fitness
elements keep their original relative order — exactly the tie behaviour
of Python's stable `list.sort(..., reverse=True)`. -/
def insertByFitness (x : Individual) : List Individual → List Individual
  | [] => [x]
  | y :: ys => if fitnessGe y x then y :: insertByFitness x ys else x :: y :: ys

/-- `population.sort(key=lambda ind: ind.fitness, reverse=True)`: a
stable descending sort by fitness. -/
def sortByFitness : List Individual → List Individual
  | [] => []
  | x :: xs => insertByFitness x (sortByFitness xs)

/-- One generation of `GeneticScheduler.schedule`'s evolution loop: sort
the population by descending fitness, deep-copy the top `elitism_count`
individuals, then fill up to `population_size` with oracle-produced
children.  `none` models the `IndexError` raised when `elitism_count`
exceeds the population size. -/
def GeneticScheduler.next_population (g : GeneticScheduler) (child : Nat → Individual)
    (population : List Individual) : Option (List Individual) :=
  if g.elitism_count ≤ population.length then
    let sorted := sortByFitness population
    let elites := sorted.take g.elitism_count
    some (elites ++ (List.range (g.population_size - g.elitism_count)).map child)
  else none

/-- The evolution loop of `GeneticScheduler.schedule`: run the remaining
generations, tracking the best individual seen (replaced only on strictly
greater fitness). -/
def GeneticScheduler.ga_loop (g : GeneticScheduler) (child : Nat → Nat → Individual) :
    Nat → Nat → List Individual → Individual → Option Individual
  | _, 0, _, best_individual => some best_individual
  | gen, remaining + 1, population, best_individual =>
    match g.next_population (child gen) population with
    | none => none
    | some population2 =>
      match maxByFitness population2 with
      | none => none
      | some current_best =>
        g.ga_loop child (gen + 1) remaining population2
          (if best_individual.fitness < current_best.fitness then current_best
           else best_individual)

/-- `GeneticScheduler.schedule`: evolve the population and return the
decoded action list of the best individual seen.  `jobs` is the
snapshot's job list (an empty job list returns `[]` at once);
`init_population` abstracts the random initial population. -/
def GeneticScheduler.schedule (g : GeneticScheduler) (jobs : List Job)
    (init_population : List Individual) (child : Nat → Nat → Individual) :
    Option (List Action) :=
  if jobs.isEmpty then some []
  else
    match maxByFitness init_population with
    | none => none
    | some best_individual =>
      match g.ga_loop child 0 g.generations init_population best_individual with
      | none => none
      | some best => some best.actions

/-- The population after `k` generations, for stating properties about
every individual evaluated during the run. -/
def GeneticScheduler.populationAt (g : GeneticScheduler) (child : Nat → Nat → Individual)
    (init_population : List Individual) : Nat → Nat → Option (List Individual)
  | _, 0 => some init_population
  | gen, k + 1 =>
    match g.populationAt child init_population gen k with
    | none => none
    | some population => g.next_population (child (gen + k)) population

/-! ## Observation helpers

Read-only views of a job list, used to state what the runtime's in-place
mutations did: they read exactly the object the Python references point
at (first id match in scan order). -/

/-- The `being_processed` flag of the (first) job with the given id. -/
def jobBeingProcessed (jobs : List Job) (job_id : String) : Option Bool :=
  (jobs.find? (fun j => j.id == job_id)).map (fun j => j.being_processed)

/-- The `done` flag of the (first) operation with the given id. -/
def operationDoneFlag (jobs : List Job) (operation_id : String) : Option Bool :=
  ((jobs.flatMap (fun j => j.operations)).find? (fun op => op.id == operation_id)).map
    (fun op => op.done)

/-! ## Concrete test fixtures

Small concrete catalogs, jobs and factories used by witness and
counterexample theorems. -/

namespace Fixture

def tmA : TaskMode := { id := "TMA", power := [2, 2] }
def tmB : TaskMode := { id := "TMB", power := [2, 2] }
def tmS : TaskMode := { id := "TMS", power := [5] }
def tmL : TaskMode := { id := "TML", power := List.replicate 60 1 }
def taskT1 : Task := { id := "T1", task_modes := ["TMA", "TMB"] }
def taskT2 : Task := { id := "T2", task_modes := ["TMS"] }
def taskT3 : Task := { id := "T3", task_modes := ["TML"] }
def machM1 : Machine := { id := "M1", task_modes := ["TMA", "TMB"] }
def machM2 : Machine := { id := "M2", task_modes := ["TMS"] }
def machM3 : Machine := { id := "M3", task_modes := ["TML"] }
def machM4 : Machine := { id := "M4", task_modes := ["TMS"] }
def esSolar : EnergySource := { id := "Solar", price := none, availability := some [3, 3] }
def esGrid : EnergySource :=
  { id := "Socket Energy", price := some [2, 2], availability := none }

def logic : FactoryLogic :=
  { task_modes := [tmA, tmB, tmS, tmL]
    tasks := [taskT1, taskT2, taskT3]
    products := []
    machines := [machM1, machM2, machM3, machM4]
    energy_sources := [esSolar, esGrid] }

/-- A not-started, not-done operation. -/
def freshOp (oid tid : String) (dl : Option Nat) : Operation :=
  { id := oid, task_id := tid, run_index := 0, deadline := dl, started := false, done := false }

/-- A done job whose single operation is still fresh: `dispatch` accepts
it because no job-done check exists. -/
def doneJob : Job :=
  { id := "J1", product_id := "P1", operations := [freshOp "O1" "T1" none]
    being_processed := false, deadline := none, done := true }

def factory1 : Factory :=
  { factory_logic := logic
    jobs := [doneJob]
    current_step := 0
    machine_runtimes_map := [("M1", MachineRuntime.init "M1")] }

/-- A job currently being processed. -/
def busyJob : Job :=
  { id := "J2", product_id := "P1", operations := [freshOp "O2" "T1" none]
    being_processed := true, deadline := none, done := false }

def factory2 : Factory :=
  { factory_logic := logic
    jobs := [busyJob]
    current_step := 0
    machine_runtimes_map := [("M1", MachineRuntime.init "M1")] }

/-- A started operation, its processing job, and the busy runtime holding
them with one remaining step. -/
def startedOp : Operation :=
  { id := "O1", task_id := "T2", run_index := 0, deadline := none, started := true
    done := false }

def processingJob : Job :=
  { id := "J1", product_id := "P1", operations := [startedOp], being_processed := true
    deadline := none, done := false }

def busyRuntime : MachineRuntime :=
  { busy := true, machine_id := "M2", job_id := some "J1", operation_id := some "O1"
    power_sequence := some [5], remaining_operation_steps := 1, operation_step := 0 }

/-- An operation with deadline 10 and its job, on machine `M2`. -/
def dlOp : Operation := freshOp "O5" "T2" (some 10)

def dlJob : Job :=
  { id := "J5", product_id := "P1", operations := [dlOp], being_processed := false
    deadline := some 10, done := false }

def stateC3 : FactoryState :=
  { current_step := 0, steps_until_end_of_day := 192, jobs := [dlJob]
    factory_logic := logic, machine_busy := [("M2", false)] }

/-- A deadline-free job whose task has only the 60-step mode `TML`. -/
def longJob : Job :=
  { id := "J6", product_id := "P1", operations := [freshOp "O6" "T3" none]
    being_processed := false, deadline := none, done := false }

def stateC5a : FactoryState :=
  { current_step := 140, steps_until_end_of_day := 52, jobs := [longJob]
    factory_logic := logic, machine_busy := [("M3", false)] }

/-- A deadline-free short job near the end of the day (42 steps left). -/
def shortJob : Job :=
  { id := "J7", product_id := "P1", operations := [freshOp "O7" "T2" none]
    being_processed := false, deadline := none, done := false }

def stateC5b : FactoryState :=
  { current_step := 150, steps_until_end_of_day := 42, jobs := [shortJob]
    factory_logic := logic, machine_busy := [("M2", false)] }

/-- Two deadline-free jobs contending for machines `M2` and `M4` (the
second job has an extra operation of an unknown task, so its score
differs from the first job's at the remaining-operations field). -/
def c7Job1 : Job :=
  { id := "J1", product_id := "P1", operations := [freshOp "O1" "T2" none]
    being_processed := false, deadline := none, done := false }

def c7Job2 : Job :=
  { id := "J2", product_id := "P1"
    operations := [freshOp "O2" "T2" none, freshOp "O9" "T9" none]
    being_processed := false, deadline := none, done := false }

def stateC7 : FactoryState :=
  { current_step := 0, steps_until_end_of_day := 192, jobs := [c7Job1, c7Job2]
    factory_logic := logic, machine_busy := [("M2", false), ("M4", false)] }

/-- The actions both schedulers choose on `stateC7`. -/
def chosenA1 : Action :=
  { machine_id := "M2", job_id := "J1", operation_id := "O1", task_mode_id := "TMS"
    start_step := 0, end_step := 1 }

def chosenA2 : Action :=
  { machine_id := "M4", job_id := "J2", operation_id := "O2", task_mode_id := "TMS"
    start_step := 0, end_step := 1 }

/-- A job whose single operation's task has two modes `TMA`/`TMB` with
identical power sequences, on machine `M1` which supports both. -/
def c8Job : Job :=
  { id := "J1", product_id := "P1", operations := [freshOp "O1" "T1" none]
    being_processed := false, deadline := none, done := false }

def stateC8 : FactoryState :=
  { current_step := 0, steps_until_end_of_day := 192, jobs := [c8Job]
    factory_logic := logic, machine_busy := [("M1", false)] }

def c8faA : FeasibleAction :=
  { machine_id := "M1", job_id := "J1", operation_id := "O1", task_mode_id := "TMA" }

def c8faB : FeasibleAction :=
  { machine_id := "M1", job_id := "J1", operation_id := "O1", task_mode_id := "TMB" }

/-- The default rule-based configuration. -/
def rbCfg : RuleBasedScheduler :=
  { urgent_window := 48, caution_window := 96, prefer_low_power := true }

/-- Individuals and configuration for the genetic-algorithm witness. -/
def giA : Individual :=
  { genome := [], fitness := 1, actions := [], total_cost := none, makespan := none }

def giB : Individual :=
  { genome := [], fitness := 2, actions := [], total_cost := none, makespan := none }

def giC : Individual :=
  { genome := [], fitness := 0, actions := [], total_cost := none, makespan := none }

def gaCfg : GeneticScheduler :=
  { population_size := 2, generations := 1, mutation_rate := 0, elitism_count := 1 }

def gaChild : Nat → Nat → Individual := fun _ _ => giC

end Fixture

/-! # Theorems -/

/-! ## Generic lemmas about the Python `min`/`max` folds -/

theorem foldl_pick_mem {α β : Type} [LinearOrder β]
    (f : α × β → α × β → α × β)
    (hf : ∀ b q, f b q = q ∨ f b q = b) :
    ∀ (l : List (α × β)) (p : α × β), l.foldl f p = p ∨ l.foldl f p ∈ l := by
  intro l
  induction l with
  | nil => intro p; exact Or.inl rfl
  | cons q rest ih =>
    intro p
    simp only [List.foldl_cons]
    rcases ih (f p q) with h | h
    · rw [h]
      rcases hf p q with h2 | h2
      · rw [h2]; exact Or.inr (List.mem_cons_self q rest)
      · rw [h2]; exact Or.inl rfl
    · exact Or.inr (List.mem_cons_of_mem q h)

theorem pickMinPair_mem {α β : Type} [LinearOrder β] (l : List (α × β)) (p : α × β)
    (h : pickMinPair l = some p) : p ∈ l := by
  cases l with
  | nil => simp [pickMinPair] at h
  | cons q rest =>
    simp only [pickMinPair, Option.some.injEq] at h
    have hstep : ∀ (b r : α × β),
        (fun best q2 => if q2.2 < best.2 then q2 else best) b r = r ∨
        (fun best q2 => if q2.2 < best.2 then q2 else best) b r = b := by
      intro b r
      by_cases hc : r.2 < b.2 <;> simp [hc]
    rcases foldl_pick_mem _ hstep rest q with h2 | h2
    · rw [← h, h2]; exact List.mem_cons_self q rest
    · rw [← h]; exact List.mem_cons_of_mem q h2

theorem pickMaxPair_mem {α β : Type} [LinearOrder β] (l : List (α × β)) (p : α × β)
    (h : pickMaxPair l = some p) : p ∈ l := by
  cases l with
  | nil => simp [pickMaxPair] at h
  | cons q rest =>
    simp only [pickMaxPair, Option.some.injEq] at h
    have hstep : ∀ (b r : α × β),
        (fun best q2 => if best.2 < q2.2 then q2 else best) b r = r ∨
        (fun best q2 => if best.2 < q2.2 then q2 else best) b r = b := by
      intro b r
      by_cases hc : b.2 < r.2 <;> simp [hc]
    rcases foldl_pick_mem _ hstep rest q with h2 | h2
    · rw [← h, h2]; exact List.mem_cons_self q rest
    · rw [← h]; exact List.mem_cons_of_mem q h2

theorem foldl_pickMin_le {α β : Type} [LinearOrder β] :
    ∀ (l : List (α × β)) (p : α × β),
      (l.foldl (fun best q => if q.2 < best.2 then q else best) p).2 ≤ p.2 ∧
      ∀ q ∈ l, (l.foldl (fun best q => if q.2 < best.2 then q else best) p).2 ≤ q.2 := by
  intro l
  induction l with
  | nil => intro p; exact ⟨le_refl _, by simp⟩
  | cons q rest ih =>
    intro p
    simp only [List.foldl_cons]
    by_cases hc : q.2 < p.2
    · have h2 := ih q
      rw [if_pos hc]
      refine ⟨le_trans h2.1 hc.le, ?_⟩
      intro r hr
      rcases List.mem_cons.mp hr with rfl | hr'
      · exact h2.1
      · exact h2.2 r hr'
    · have h2 := ih p
      rw [if_neg hc]
      refine ⟨h2.1, ?_⟩
      intro r hr
      rcases List.mem_cons.mp hr with rfl | hr'
      · exact le_trans h2.1 (not_lt.mp hc)
      · exact h2.2 r hr'

theorem pickMinPair_le {α β : Type} [LinearOrder β] (l : List (α × β)) (p : α × β)
    (h : pickMinPair l = some p) : ∀ q ∈ l, p.2 ≤ q.2 := by
  cases l with
  | nil => simp [pickMinPair] at h
  | cons q0 rest =>
    simp only [pickMinPair, Option.some.injEq] at h
    intro q hq
    rcases List.mem_cons.mp hq with rfl | hq'
    · rw [← h]; exact (foldl_pickMin_le rest q).1
    · rw [← h]; exact (foldl_pickMin_le rest q0).2 q hq'

theorem withKeys_mem {α β : Type} (key : α → Option β) :
    ∀ (l : List α) (ps : List (α × β)), withKeys key l = some ps →
      ∀ p ∈ ps, p.1 ∈ l := by
  intro l
  induction l with
  | nil =>
    intro ps h p hp
    simp only [withKeys, Option.some.injEq] at h
    rw [← h] at hp
    simp at hp
  | cons x rest ih =>
    intro ps h p hp
    simp only [withKeys] at h
    cases hk : key x with
    | none => rw [hk] at h; simp at h
    | some k =>
      rw [hk] at h
      cases hr : withKeys key rest with
      | none => rw [hr] at h; simp at h
      | some ps2 =>
        rw [hr] at h
        simp only [Option.some.injEq] at h
        rw [← h] at hp
        rcases List.mem_cons.mp hp with rfl | hp'
        · exact List.mem_cons_self x rest
        · exact List.mem_cons_of_mem x (ih ps2 hr p hp')

theorem pyMinBy_mem {α β : Type} [LinearOrder β] (key : α → Option β) (l : List α) (a : α)
    (h : pyMinBy key l = some a) : a ∈ l := by
  simp only [pyMinBy] at h
  cases hw : withKeys key l with
  | none => rw [hw] at h; simp at h
  | some ps =>
    simp only [hw] at h
    cases hp : pickMinPair ps with
    | none => simp [hp] at h
    | some p =>
      simp only [hp, Option.some.injEq] at h
      rw [← h]
      exact withKeys_mem key l ps hw p (pickMinPair_mem ps p hp)

theorem pyMaxBy_mem {α β : Type} [LinearOrder β] (key : α → Option β) (l : List α) (a : α)
    (h : pyMaxBy key l = some a) : a ∈ l := by
  simp only [pyMaxBy] at h
  cases hw : withKeys key l with
  | none => rw [hw] at h; simp at h
  | some ps =>
    simp only [hw] at h
    cases hp : pickMaxPair ps with
    | none => simp [hp] at h
    | some p =>
      simp only [hp, Option.some.injEq] at h
      rw [← h]
      exact withKeys_mem key l ps hw p (pickMaxPair_mem ps p hp)

/-! ## C4: step power cost formula -/

/-- C4: for every `power_consumed` and `step`, `Factory.get_step_power_cost`
returns exactly `max 0 (power_consumed − solar_available step) × grid_cost
step`, and returns `0` whenever `power_consumed ≤ solar_available step`. -/
theorem step_power_cost_formula (f : Factory) (power_consumed : Rat) (step : Nat) :
    f.get_step_power_cost power_consumed step =
      max 0 (power_consumed - f.factory_logic.get_solar_power_available step) *
        f.factory_logic.get_grid_power_cost step ∧
    (power_consumed ≤ f.factory_logic.get_solar_power_available step →
      f.get_step_power_cost power_consumed step = 0) := by
  constructor
  · show (if 0 < power_consumed - f.factory_logic.get_solar_power_available step then
        (power_consumed - f.factory_logic.get_solar_power_available step) *
          f.factory_logic.get_grid_power_cost step
      else 0) = _
    by_cases h : 0 < power_consumed - f.factory_logic.get_solar_power_available step
    · rw [if_pos h, max_eq_right h.le]
    · rw [if_neg h, max_eq_left (le_of_not_lt h), zero_mul]
  · intro h
    show (if 0 < power_consumed - f.factory_logic.get_solar_power_available step then
        (power_consumed - f.factory_logic.get_solar_power_available step) *
          f.factory_logic.get_grid_power_cost step
      else 0) = 0
    rw [if_neg (not_lt.mpr (sub_nonpos.mpr h))]

/-- C4 witness: on the concrete factory, 2 kWh consumed at step 0 with 3
kWh solar available costs exactly 0. -/
theorem step_power_cost_formula_witness :
    Fixture.factory1.get_step_power_cost 2 0 = 0 :=
  (step_power_cost_formula Fixture.factory1 2 0).2 (by decide)

/-! ## C2: the machine-runtime busy invariant -/

/-- C2 counterexample: the claim says the invariant
`busy ⇔ (non-empty power sequence ∧ remaining-steps > 0)` is preserved
even when `start_operation` receives an empty power sequence.  It is not:
starting a fresh runtime on an empty power sequence leaves it `busy` with
an empty sequence and zero remaining steps. -/
theorem runtime_invariant_empty_sequence_cex :
    (MachineRuntime.init "M1").invariant = true ∧
    ((MachineRuntime.init "M1").start_operation "J1" "O1" [] []).1.busy = true ∧
    ((MachineRuntime.init "M1").start_operation "J1" "O1" [] []).1.invariant = false := by
  decide

/-- C2 (amended): the invariant
`busy ⇔ (non-empty power sequence ∧ remaining-steps > 0)` holds for a
fresh runtime, is established by `start_operation` whenever the supplied
power sequence is non-empty, and is preserved by every `step_power` call
that returns; `start_operation` with an empty power sequence violates
it. -/
theorem runtime_invariant_preservation :
    (∀ machine_id, (MachineRuntime.init machine_id).invariant = true) ∧
    (∀ (m : MachineRuntime) (job_id operation_id : String) (ps : List Rat) (jobs : List Job),
      ps ≠ [] → ((m.start_operation job_id operation_id ps jobs).1).invariant = true) ∧
    (∀ (m : MachineRuntime) (jobs : List Job) (p : Rat) (m2 : MachineRuntime)
      (jobs2 : List Job),
      m.invariant = true → m.step_power jobs = some (p, m2, jobs2) →
      m2.invariant = true) := by
  refine ⟨fun machine_id => rfl, ?_, ?_⟩
  · intro m job_id operation_id ps jobs hps
    cases ps with
    | nil => exact absurd rfl hps
    | cons a l =>
      simp [MachineRuntime.start_operation, MachineRuntime.invariant]
  · intro m jobs p m2 jobs2 hinv hstep
    cases hps : m.power_sequence with
    | none =>
      have heval : m.step_power jobs = some (0, m, jobs) := by
        simp [MachineRuntime.step_power, hps]
      rw [heval, Option.some_inj, Prod.mk.injEq, Prod.mk.injEq] at hstep
      rw [← hstep.2.1]
      exact hinv
    | some ps =>
      by_cases hb : m.busy = false
      · have heval : m.step_power jobs = some (0, m, jobs) := by
          simp [MachineRuntime.step_power, hps, hb]
        rw [heval, Option.some_inj, Prod.mk.injEq, Prod.mk.injEq] at hstep
        rw [← hstep.2.1]
        exact hinv
      · have hbusy : m.busy = true := by
          cases hbm : m.busy
          · exact absurd hbm hb
          · rfl
        cases hget : ps[m.operation_step]? with
        | none =>
          have heval : m.step_power jobs = none := by
            simp [MachineRuntime.step_power, hps, hbusy, hget]
          rw [heval] at hstep
          exact absurd hstep (by simp)
        | some power =>
          simp only [MachineRuntime.invariant, hbusy, hps, beq_iff_eq] at hinv
          have hinv2 : ps.isEmpty = false ∧ 0 < m.remaining_operation_steps := by
            rcases Bool.and_eq_true _ _ |>.mp hinv.symm with ⟨h1, h2⟩
            exact ⟨by revert h1; cases ps.isEmpty <;> simp, of_decide_eq_true h2⟩
          by_cases hrem : m.remaining_operation_steps - 1 = 0
          · cases hjid : m.job_id with
            | none =>
              have heval : m.step_power jobs = none := by
                simp [MachineRuntime.step_power, hps, hbusy, hget, hrem, hjid]
              rw [heval] at hstep
              exact absurd hstep (by simp)
            | some jid =>
              cases hoid : m.operation_id with
              | none =>
                have heval : m.step_power jobs = none := by
                  simp [MachineRuntime.step_power, hps, hbusy, hget, hrem, hjid, hoid]
                rw [heval] at hstep
                exact absurd hstep (by simp)
              | some oid =>
                have heval : m.step_power jobs = some (power, m.reset,
                    markOperationDone (markJobProcessed jobs jid false) oid) := by
                  simp [MachineRuntime.step_power, hps, hbusy, hget, hrem, hjid, hoid]
                rw [heval, Option.some_inj, Prod.mk.injEq, Prod.mk.injEq] at hstep
                rw [← hstep.2.1]
                rfl
          · have heval : m.step_power jobs = some (power,
                { m with
                    operation_step := m.operation_step + 1
                    remaining_operation_steps := m.remaining_operation_steps - 1 },
                jobs) := by
              simp [MachineRuntime.step_power, hps, hbusy, hget, hrem]
            rw [heval, Option.some_inj, Prod.mk.injEq, Prod.mk.injEq] at hstep
            rw [← hstep.2.1]
            have hpos : 0 < m.remaining_operation_steps - 1 := by
              have := hinv2.2
              omega
            simp [MachineRuntime.invariant, hbusy, hps, hinv2.1, hpos]
/-- C2 witness: starting a fresh runtime on the non-empty power sequence
`[5]` establishes the invariant. -/
theorem runtime_invariant_preservation_witness :
    (((MachineRuntime.init "M1").start_operation "J1" "O1" [5] []).1).invariant = true :=
  runtime_invariant_preservation.2.1 (MachineRuntime.init "M1") "J1" "O1" [5] []
    (by decide)

/-! ## C10: partiality of genetic crossover -/

/-- C10: `_crossover` raises for every random draw when both parent
genomes are non-empty and the shorter has length exactly 1
(`random.randint(1, 0)`); it returns a copy of `parent1`'s genome when
either genome is empty, and succeeds for every draw when both genomes
have length ≥ 2. -/
theorem crossover_partiality :
    (∀ (r : Nat) (p1 p2 : Individual), p1.genome ≠ [] → p2.genome ≠ [] →
      min p1.genome.length p2.genome.length = 1 →
      GeneticScheduler.crossover r p1 p2 = none) ∧
    (∀ (r : Nat) (p1 p2 : Individual), p1.genome = [] ∨ p2.genome = [] →
      GeneticScheduler.crossover r p1 p2 = some (Individual.init p1.genome)) ∧
    (∀ (r : Nat) (p1 p2 : Individual), 2 ≤ p1.genome.length → 2 ≤ p2.genome.length →
      (GeneticScheduler.crossover r p1 p2).isSome = true) := by
  refine ⟨?_, ?_, ?_⟩
  · intro r p1 p2 h1 h2 hmin
    unfold GeneticScheduler.crossover
    rw [if_neg]
    · have hcast : ((min p1.genome.length p2.genome.length : Nat) : Int) = 1 := by
        rw [hmin]; rfl
      have : (min (p1.genome.length : Int) (p2.genome.length : Int)) - 1 = 0 := by
        push_cast at hcast ⊢
        omega
      rw [this]
      unfold pyRandint
      rw [if_pos (by norm_num)]
    · push_neg
      exact ⟨fun h => h1 (List.length_eq_zero.mp h), fun h => h2 (List.length_eq_zero.mp h)⟩
  · intro r p1 p2 h
    unfold GeneticScheduler.crossover
    rw [if_pos]
    rcases h with h | h
    · exact Or.inl (by rw [h]; rfl)
    · exact Or.inr (by rw [h]; rfl)
  · intro r p1 p2 h1 h2
    unfold GeneticScheduler.crossover
    by_cases hz : p1.genome.length = 0 ∨ p2.genome.length = 0
    · rw [if_pos hz]; rfl
    · rw [if_neg hz]
      unfold pyRandint
      rw [if_neg]
      · rfl
      · push_neg
        have : (2 : Int) ≤ min (p1.genome.length : Int) (p2.genome.length : Int) :=
          le_min (by exact_mod_cast h1) (by exact_mod_cast h2)
        omega

/-- C10 witness: with two genomes of length 1 every draw raises; with an
empty first parent the copy is returned; with two genomes of length 2 the
crossover succeeds. -/
theorem crossover_partiality_witness :
    GeneticScheduler.crossover 0 (Individual.init [("O1", "M1", "TMA")])
      (Individual.init [("O2", "M1", "TMB")]) = none ∧
    GeneticScheduler.crossover 0 (Individual.init [])
      (Individual.init [("O2", "M1", "TMB")]) = some (Individual.init []) ∧
    (GeneticScheduler.crossover 3
      (Individual.init [("O1", "M1", "TMA"), ("O2", "M1", "TMB")])
      (Individual.init [("O3", "M2", "TMS"), ("O4", "M2", "TMS")])).isSome = true :=
  ⟨crossover_partiality.1 0 _ _ (by decide) (by decide) (by decide),
   crossover_partiality.2.1 0 _ _ (Or.inl rfl),
   crossover_partiality.2.2 3 _ _ (by decide) (by decide)⟩

/-! ## C1: dispatch validation order -/

/-- C1 counterexample: the claim states that `dispatch_operation` checks
"job not done" (second, right after "job not being processed") and that
"a dispatch naming a job that is already done always fails".  The code
has no job-done check at all: dispatching the done job `J1`, whose single
operation is still fresh, succeeds. -/
theorem dispatch_done_job_succeeds_cex :
    Fixture.doneJob.done = true ∧
    Fixture.factory1.jobs = [Fixture.doneJob] ∧
    (Fixture.factory1.dispatch_operation "M1" "J1" "O1" "TMA").isOk = true := by
  decide

/-- C1 (amended): `dispatch_operation` validates its preconditions in the
source order — job exists; job not being processed; operation exists; the
operation's task is known and the requested task mode belongs to it; the
task mode is in the catalog; the machine id is known to both the runtime
map and the catalog; the machine runtime is not busy; the operation is
not done; the operation is not started — and each violation aborts with
its own distinct error before any state is mutated.  There is no job-done
check: when every listed check passes the dispatch succeeds even if the
job is done. -/
theorem dispatch_validation_order (f : Factory)
    (machine_id job_id operation_id task_mode_id : String) :
    (f.get_job_by_id job_id = none →
      f.dispatch_operation machine_id job_id operation_id task_mode_id =
        .error (.jobNotFound job_id)) ∧
    (∀ job, f.get_job_by_id job_id = some job → job.being_processed = true →
      f.dispatch_operation machine_id job_id operation_id task_mode_id =
        .error (.jobBeingProcessed job_id)) ∧
    (∀ job, f.get_job_by_id job_id = some job → job.being_processed = false →
      f.get_operation_by_id operation_id = none →
      f.dispatch_operation machine_id job_id operation_id task_mode_id =
        .error (.operationNotFound operation_id)) ∧
    (∀ job op, f.get_job_by_id job_id = some job → job.being_processed = false →
      f.get_operation_by_id operation_id = some op →
      f.factory_logic.get_task op.task_id = none →
      f.dispatch_operation machine_id job_id operation_id task_mode_id =
        .error (.taskNotFound op.task_id)) ∧
    (∀ job op task, f.get_job_by_id job_id = some job → job.being_processed = false →
      f.get_operation_by_id operation_id = some op →
      f.factory_logic.get_task op.task_id = some task →
      task.task_modes.contains task_mode_id = false →
      f.dispatch_operation machine_id job_id operation_id task_mode_id =
        .error (.taskModeNotAvailable task_mode_id op.task_id)) ∧
    (∀ job op task, f.get_job_by_id job_id = some job → job.being_processed = false →
      f.get_operation_by_id operation_id = some op →
      f.factory_logic.get_task op.task_id = some task →
      task.task_modes.contains task_mode_id = true →
      f.factory_logic.get_task_mode task_mode_id = none →
      f.dispatch_operation machine_id job_id operation_id task_mode_id =
        .error (.taskModeNotFound task_mode_id)) ∧
    (∀ job op task tm, f.get_job_by_id job_id = some job → job.being_processed = false →
      f.get_operation_by_id operation_id = some op →
      f.factory_logic.get_task op.task_id = some task →
      task.task_modes.contains task_mode_id = true →
      f.factory_logic.get_task_mode task_mode_id = some tm →
      (f.machine_runtimes_map.any (fun p => p.1 == machine_id) &&
        f.factory_logic.machines.any (fun mc => mc.id == machine_id)) = false →
      f.dispatch_operation machine_id job_id operation_id task_mode_id =
        .error (.machineNotFound machine_id)) ∧
    (∀ job op task tm k rt, f.get_job_by_id job_id = some job →
      job.being_processed = false →
      f.get_operation_by_id operation_id = some op →
      f.factory_logic.get_task op.task_id = some task →
      task.task_modes.contains task_mode_id = true →
      f.factory_logic.get_task_mode task_mode_id = some tm →
      (f.machine_runtimes_map.any (fun p => p.1 == machine_id) &&
        f.factory_logic.machines.any (fun mc => mc.id == machine_id)) = true →
      f.machine_runtimes_map.find? (fun p => p.1 == machine_id) = some (k, rt) →
      rt.busy = true →
      f.dispatch_operation machine_id job_id operation_id task_mode_id =
        .error (.machineBusy machine_id)) ∧
    (∀ job op task tm k rt, f.get_job_by_id job_id = some job →
      job.being_processed = false →
      f.get_operation_by_id operation_id = some op →
      f.factory_logic.get_task op.task_id = some task →
      task.task_modes.contains task_mode_id = true →
      f.factory_logic.get_task_mode task_mode_id = some tm →
      (f.machine_runtimes_map.any (fun p => p.1 == machine_id) &&
        f.factory_logic.machines.any (fun mc => mc.id == machine_id)) = true →
      f.machine_runtimes_map.find? (fun p => p.1 == machine_id) = some (k, rt) →
      rt.busy = false → op.done = true →
      f.dispatch_operation machine_id job_id operation_id task_mode_id =
        .error (.operationDone op.id)) ∧
    (∀ job op task tm k rt, f.get_job_by_id job_id = some job →
      job.being_processed = false →
      f.get_operation_by_id operation_id = some op →
      f.factory_logic.get_task op.task_id = some task →
      task.task_modes.contains task_mode_id = true →
      f.factory_logic.get_task_mode task_mode_id = some tm →
      (f.machine_runtimes_map.any (fun p => p.1 == machine_id) &&
        f.factory_logic.machines.any (fun mc => mc.id == machine_id)) = true →
      f.machine_runtimes_map.find? (fun p => p.1 == machine_id) = some (k, rt) →
      rt.busy = false → op.done = false → op.started = true →
      f.dispatch_operation machine_id job_id operation_id task_mode_id =
        .error (.operationStarted op.id)) ∧
    (∀ job op task tm k rt, f.get_job_by_id job_id = some job →
      job.being_processed = false →
      f.get_operation_by_id operation_id = some op →
      f.factory_logic.get_task op.task_id = some task →
      task.task_modes.contains task_mode_id = true →
      f.factory_logic.get_task_mode task_mode_id = some tm →
      (f.machine_runtimes_map.any (fun p => p.1 == machine_id) &&
        f.factory_logic.machines.any (fun mc => mc.id == machine_id)) = true →
      f.machine_runtimes_map.find? (fun p => p.1 == machine_id) = some (k, rt) →
      rt.busy = false → op.done = false → op.started = false →
      (f.dispatch_operation machine_id job_id operation_id task_mode_id).isOk = true) := by
  refine ⟨?_, ?_, ?_, ?_, ?_, ?_, ?_, ?_, ?_, ?_, ?_⟩
  · intro hjob
    simp [Factory.dispatch_operation, hjob]
  · intro job hjob hbp
    simp [Factory.dispatch_operation, hjob, hbp]
  · intro job hjob hbp hop
    simp [Factory.dispatch_operation, hjob, hbp, hop]
  · intro job op hjob hbp hop htask
    simp [Factory.dispatch_operation, hjob, hbp, hop, htask]
  · intro job op task hjob hbp hop htask hmode
    simp at hmode
    simp [Factory.dispatch_operation, hjob, hbp, hop, htask, hmode]
  · intro job op task hjob hbp hop htask hmode htm
    simp at hmode
    simp [Factory.dispatch_operation, hjob, hbp, hop, htask, hmode, htm]
  · intro job op task tm hjob hbp hop htask hmode htm hmach
    simp at hmode hmach
    simp [Factory.dispatch_operation, hjob, hbp, hop, htask, hmode, htm, hmach]
    exact fun x hx y hy hid => absurd hid (hmach x hx y hy)
  · intro job op task tm k rt hjob hbp hop htask hmode htm hmach hfind hbusy
    simp at hmode hmach
    simp [Factory.dispatch_operation, hjob, hbp, hop, htask, hmode, htm, hmach, hfind,
      hbusy]
  · intro job op task tm k rt hjob hbp hop htask hmode htm hmach hfind hbusy hdone
    simp at hmode hmach
    simp [Factory.dispatch_operation, hjob, hbp, hop, htask, hmode, htm, hmach, hfind,
      hbusy, hdone]
  · intro job op task tm k rt hjob hbp hop htask hmode htm hmach hfind hbusy hdone hstarted
    simp at hmode hmach
    simp [Factory.dispatch_operation, hjob, hbp, hop, htask, hmode, htm, hmach, hfind,
      hbusy, hdone, hstarted]
  · intro job op task tm k rt hjob hbp hop htask hmode htm hmach hfind hbusy hdone hstarted
    simp at hmode hmach
    simp [Factory.dispatch_operation, Except.isOk, Except.toBool, hjob, hbp, hop, htask,
      hmode, htm, hmach, hfind, hbusy, hdone, hstarted]
    obtain ⟨x, hxmem, hxid⟩ := hmach.2
    rw [if_neg (fun hall => hall x hxmem hxid)]

/-- C1 witness: on a factory whose job `J2` is being processed, the
dispatch aborts with the being-processed error. -/
theorem dispatch_validation_order_witness :
    Fixture.factory2.dispatch_operation "M1" "J2" "O2" "TMA" =
      .error (.jobBeingProcessed "J2") :=
  (dispatch_validation_order Fixture.factory2 "M1" "J2" "O2" "TMA").2.1
    Fixture.busyJob (by decide) (by decide)

/-! ## C6: step_power semantics -/

theorem markOpDoneInOps_snd (ops : List Operation) (oid : String) :
    (markOpDoneInOps ops oid).2 = (ops.find? (fun op => op.id == oid)).isSome := by
  induction ops with
  | nil => rfl
  | cons op rest ih =>
    by_cases h : (op.id == oid) = true
    · simp [markOpDoneInOps, List.find?_cons_of_pos, h]
    · rw [Bool.not_eq_true] at h
      simp [markOpDoneInOps, List.find?_cons_of_neg, h, ih]

theorem markOpDoneInOps_cons_pos (op : Operation) (rest : List Operation) (oid : String)
    (h : (op.id == oid) = true) :
    markOpDoneInOps (op :: rest) oid = ({ op with done := true } :: rest, true) := by
  simp [markOpDoneInOps, h]

theorem markOpDoneInOps_cons_neg (op : Operation) (rest : List Operation) (oid : String)
    (h : (op.id == oid) = false) :
    markOpDoneInOps (op :: rest) oid =
      (op :: (markOpDoneInOps rest oid).1, (markOpDoneInOps rest oid).2) := by
  simp [markOpDoneInOps, h]

theorem markOpDoneInOps_find (ops : List Operation) (oid : String) :
    (markOpDoneInOps ops oid).1.find? (fun op => op.id == oid) =
      (ops.find? (fun op => op.id == oid)).map (fun op => { op with done := true }) := by
  induction ops with
  | nil => rfl
  | cons op rest ih =>
    by_cases h : (op.id == oid) = true
    · rw [markOpDoneInOps_cons_pos op rest oid h]
      simp [List.find?_cons, h]
    · rw [Bool.not_eq_true] at h
      rw [markOpDoneInOps_cons_neg op rest oid h]
      simp [List.find?_cons, h, ih]

theorem markOpDoneInOps_not_found (ops : List Operation) (oid : String)
    (h : (markOpDoneInOps ops oid).2 = false) : (markOpDoneInOps ops oid).1 = ops := by
  induction ops with
  | nil => rfl
  | cons op rest ih =>
    by_cases hop : (op.id == oid) = true
    · rw [markOpDoneInOps_cons_pos op rest oid hop] at h
      simp at h
    · rw [Bool.not_eq_true] at hop
      rw [markOpDoneInOps_cons_neg op rest oid hop] at h ⊢
      simp only at h ⊢
      rw [ih h]

theorem markOperationDone_cons_pos (j : Job) (rest : List Job) (oid : String)
    (h : (markOpDoneInOps j.operations oid).2 = true) :
    markOperationDone (j :: rest) oid =
      { j with operations := (markOpDoneInOps j.operations oid).1 } :: rest := by
  simp [markOperationDone, h]

theorem markOperationDone_cons_neg (j : Job) (rest : List Job) (oid : String)
    (h : (markOpDoneInOps j.operations oid).2 = false) :
    markOperationDone (j :: rest) oid = j :: markOperationDone rest oid := by
  simp [markOperationDone, h]

theorem markOperationDone_beingProcessed (jobs : List Job) (oid jid : String) :
    jobBeingProcessed (markOperationDone jobs oid) jid = jobBeingProcessed jobs jid := by
  induction jobs with
  | nil => rfl
  | cons j rest ih =>
    by_cases hfound : (markOpDoneInOps j.operations oid).2 = true
    · rw [markOperationDone_cons_pos j rest oid hfound]
      simp only [jobBeingProcessed, List.find?_cons]
      by_cases hid : (j.id == jid) = true
      · simp [hid]
      · rw [Bool.not_eq_true] at hid
        simp [hid]
    · rw [Bool.not_eq_true] at hfound
      rw [markOperationDone_cons_neg j rest oid hfound]
      simp only [jobBeingProcessed, List.find?_cons] at ih ⊢
      by_cases hid : (j.id == jid) = true
      · simp [hid]
      · rw [Bool.not_eq_true] at hid
        simp only [hid]
        exact ih

theorem markOperationDone_doneFlag (jobs : List Job) (oid : String) :
    operationDoneFlag (markOperationDone jobs oid) oid =
      (operationDoneFlag jobs oid).map (fun _ => true) := by
  induction jobs with
  | nil => rfl
  | cons j rest ih =>
    by_cases hfound : (markOpDoneInOps j.operations oid).2 = true
    · have hsome : (j.operations.find? (fun op => op.id == oid)).isSome = true := by
        rw [← markOpDoneInOps_snd]; exact hfound
      obtain ⟨op0, hop0⟩ := Option.isSome_iff_exists.mp hsome
      rw [markOperationDone_cons_pos j rest oid hfound]
      simp only [operationDoneFlag, List.flatMap_cons, List.find?_append,
        markOpDoneInOps_find, hop0]
      rfl
    · rw [Bool.not_eq_true] at hfound
      have hnone : j.operations.find? (fun op => op.id == oid) = none := by
        have h2 := markOpDoneInOps_snd j.operations oid
        rw [hfound] at h2
        exact Option.not_isSome_iff_eq_none.mp (by rw [← h2]; simp)
      rw [markOperationDone_cons_neg j rest oid hfound]
      simp only [operationDoneFlag, List.flatMap_cons, List.find?_append, hnone,
        Option.none_or]
      simp only [operationDoneFlag] at ih
      exact ih

theorem markJobProcessed_cons_pos (j : Job) (rest : List Job) (jid : String) (b : Bool)
    (h : (j.id == jid) = true) :
    markJobProcessed (j :: rest) jid b = { j with being_processed := b } :: rest := by
  simp [markJobProcessed, h]

theorem markJobProcessed_cons_neg (j : Job) (rest : List Job) (jid : String) (b : Bool)
    (h : (j.id == jid) = false) :
    markJobProcessed (j :: rest) jid b = j :: markJobProcessed rest jid b := by
  simp [markJobProcessed, h]

theorem markJobProcessed_beingProcessed (jobs : List Job) (jid : String) (b : Bool) :
    jobBeingProcessed (markJobProcessed jobs jid b) jid =
      (jobBeingProcessed jobs jid).map (fun _ => b) := by
  induction jobs with
  | nil => rfl
  | cons j rest ih =>
    by_cases hid : (j.id == jid) = true
    · rw [markJobProcessed_cons_pos j rest jid b hid]
      simp [jobBeingProcessed, List.find?_cons, hid]
    · rw [Bool.not_eq_true] at hid
      rw [markJobProcessed_cons_neg j rest jid b hid]
      simp only [jobBeingProcessed, List.find?_cons] at ih ⊢
      simp only [hid]
      exact ih

theorem markJobProcessed_doneFlag (jobs : List Job) (jid : String) (b : Bool)
    (oid : String) :
    operationDoneFlag (markJobProcessed jobs jid b) oid = operationDoneFlag jobs oid := by
  induction jobs with
  | nil => rfl
  | cons j rest ih =>
    by_cases hid : (j.id == jid) = true
    · rw [markJobProcessed_cons_pos j rest jid b hid]
      simp [operationDoneFlag, List.flatMap_cons]
    · rw [Bool.not_eq_true] at hid
      rw [markJobProcessed_cons_neg j rest jid b hid]
      simp only [operationDoneFlag, List.flatMap_cons, List.find?_append]
      simp only [operationDoneFlag] at ih
      cases hfind : List.find? (fun op => op.id == oid) j.operations with
      | some op0 => simp [hfind]
      | none =>
        simp only [hfind, Option.none_or]
        exact ih

/-- C6: `step_power` returns `0` and leaves everything unchanged when the
machine is idle.  On a well-formed busy machine it returns the power
value at the cursor; if more steps remain it only advances the cursor and
decrements remaining-steps, and exactly when remaining-steps reaches `0`
it instead marks the operation done, clears the job's being-processed
flag and resets to idle — after which a further `step_power` is a no-op,
so the completion effects happen exactly once per started operation. -/
theorem step_power_spec (m : MachineRuntime) (jobs : List Job) :
    (m.busy = false → m.step_power jobs = some (0, m, jobs)) ∧
    (∀ ps jid oid, m.busy = true → m.power_sequence = some ps →
      m.job_id = some jid → m.operation_id = some oid →
      m.operation_step < ps.length →
      m.remaining_operation_steps = (ps.length : Int) - (m.operation_step : Int) →
      (m.operation_step + 1 < ps.length →
        m.step_power jobs = some (ps.getD m.operation_step 0,
          { m with
              operation_step := m.operation_step + 1
              remaining_operation_steps := m.remaining_operation_steps - 1 },
          jobs)) ∧
      (m.operation_step + 1 = ps.length →
        ∃ jobs2, m.step_power jobs = some (ps.getD m.operation_step 0, m.reset, jobs2) ∧
          m.reset.busy = false ∧
          (∀ b, jobBeingProcessed jobs jid = some b →
            jobBeingProcessed jobs2 jid = some false) ∧
          (∀ b, operationDoneFlag jobs oid = some b →
            operationDoneFlag jobs2 oid = some true) ∧
          m.reset.step_power jobs2 = some (0, m.reset, jobs2))) := by
  constructor
  · intro hb
    cases hps : m.power_sequence with
    | none => simp [MachineRuntime.step_power, hps]
    | some ps => simp [MachineRuntime.step_power, hps, hb]
  · intro ps jid oid hb hps hjid hoid hcur hrem
    have hv : ps[m.operation_step]? = some ps[m.operation_step] :=
      List.getElem?_eq_getElem hcur
    have hgetD : ps.getD m.operation_step 0 = ps[m.operation_step] := by
      rw [List.getD_eq_getElem?_getD, hv]
      rfl
    constructor
    · intro hlt
      have hrem1 : ¬ (m.remaining_operation_steps - 1 = 0) := by
        rw [hrem]; omega
      rw [hgetD]
      simp [MachineRuntime.step_power, hps, hb, hv, hrem1]
    · intro heq
      have hrem1 : m.remaining_operation_steps - 1 = 0 := by
        rw [hrem]; omega
      refine ⟨markOperationDone (markJobProcessed jobs jid false) oid, ?_, rfl, ?_, ?_, rfl⟩
      · rw [hgetD]
        simp [MachineRuntime.step_power, hps, hb, hv, hrem1, hjid, hoid]
      · intro b hbp
        rw [markOperationDone_beingProcessed, markJobProcessed_beingProcessed, hbp]
        rfl
      · intro b hflag
        rw [markOperationDone_doneFlag, markJobProcessed_doneFlag, hflag]
        rfl

/-- C6 witness: the busy runtime with one remaining step consumes its
last power value, completes the operation, clears the job's
being-processed flag and returns to idle. -/
theorem step_power_spec_witness :
    ∃ jobs2, Fixture.busyRuntime.step_power [Fixture.processingJob] =
        some (([5] : List Rat).getD 0 0, Fixture.busyRuntime.reset, jobs2) ∧
      Fixture.busyRuntime.reset.busy = false ∧
      (∀ b, jobBeingProcessed [Fixture.processingJob] "J1" = some b →
        jobBeingProcessed jobs2 "J1" = some false) ∧
      (∀ b, operationDoneFlag [Fixture.processingJob] "O1" = some b →
        operationDoneFlag jobs2 "O1" = some true) ∧
      Fixture.busyRuntime.reset.step_power jobs2 =
        some (0, Fixture.busyRuntime.reset, jobs2) :=
  ((step_power_spec Fixture.busyRuntime [Fixture.processingJob]).2 [5] "J1" "O1"
    rfl rfl rfl rfl (by decide) (by decide)).2 (by decide)

/-! ## C3 / C5: feasibility lemmas -/

theorem filterModesDeadline_sound (fl : FactoryLogic) (cs dl : Nat) :
    ∀ (modes modes1 : List String), filterModesDeadline fl cs dl modes = some modes1 →
      ∀ mode ∈ modes1, mode ∈ modes ∧
        ∀ tm, fl.get_task_mode mode = some tm → cs + tm.power.length ≤ dl := by
  intro modes
  induction modes with
  | nil =>
    intro modes1 h mode hm
    simp only [filterModesDeadline, Option.some.injEq] at h
    rw [← h] at hm
    simp at hm
  | cons mid rest ih =>
    intro modes1 h mode hm
    cases htm : fl.get_task_mode mid with
    | none => simp [filterModesDeadline, htm] at h
    | some tm0 =>
      cases hrest : filterModesDeadline fl cs dl rest with
      | none => simp [filterModesDeadline, htm, hrest] at h
      | some rest1 =>
        have hmodes1 : modes1 =
            if cs + tm0.power.length ≤ dl then mid :: rest1 else rest1 := by
          simp only [filterModesDeadline, htm, hrest, Option.some.injEq] at h
          exact h.symm
        by_cases hfit : cs + tm0.power.length ≤ dl
        · rw [hmodes1, if_pos hfit] at hm
          rcases List.mem_cons.mp hm with rfl | hm2
          · refine ⟨List.mem_cons_self _ _, ?_⟩
            intro tm htm2
            rw [htm] at htm2
            cases htm2
            exact hfit
          · obtain ⟨h1, h2⟩ := ih rest1 hrest mode hm2
            exact ⟨List.mem_cons_of_mem _ h1, h2⟩
        · rw [hmodes1, if_neg hfit] at hm
          obtain ⟨h1, h2⟩ := ih rest1 hrest mode hm
          exact ⟨List.mem_cons_of_mem _ h1, h2⟩

theorem filterModesEndOfDay_sound (fl : FactoryLogic) (st : Nat) :
    ∀ (modes modes1 : List String), filterModesEndOfDay fl st modes = some modes1 →
      ∀ mode ∈ modes1, mode ∈ modes ∧
        ∀ tm, fl.get_task_mode mode = some tm → tm.power.length ≤ st := by
  intro modes
  induction modes with
  | nil =>
    intro modes1 h mode hm
    simp only [filterModesEndOfDay, Option.some.injEq] at h
    rw [← h] at hm
    simp at hm
  | cons mid rest ih =>
    intro modes1 h mode hm
    cases htm : fl.get_task_mode mid with
    | none => simp [filterModesEndOfDay, htm] at h
    | some tm0 =>
      cases hrest : filterModesEndOfDay fl st rest with
      | none => simp [filterModesEndOfDay, htm, hrest] at h
      | some rest1 =>
        have hmodes1 : modes1 = if tm0.power.length ≤ st then mid :: rest1 else rest1 := by
          simp only [filterModesEndOfDay, htm, hrest, Option.some.injEq] at h
          exact h.symm
        by_cases hfit : tm0.power.length ≤ st
        · rw [hmodes1, if_pos hfit] at hm
          rcases List.mem_cons.mp hm with rfl | hm2
          · refine ⟨List.mem_cons_self _ _, ?_⟩
            intro tm htm2
            rw [htm] at htm2
            cases htm2
            exact hfit
          · obtain ⟨h1, h2⟩ := ih rest1 hrest mode hm2
            exact ⟨List.mem_cons_of_mem _ h1, h2⟩
        · rw [hmodes1, if_neg hfit] at hm
          obtain ⟨h1, h2⟩ := ih rest1 hrest mode hm
          exact ⟨List.mem_cons_of_mem _ h1, h2⟩

/-- Everything a feasible action emitted for one operation satisfies:
identity fields, the status checks, the deadline filter and the
end-of-day filter. -/
theorem feasible_for_operation_sound (s : FactoryState) (machine_id : String) (job : Job)
    (op : Operation) (l : List FeasibleAction)
    (h : s.get_feasible_actions_for_operation machine_id job op = some l) :
    ∀ fa ∈ l, fa.machine_id = machine_id ∧ fa.job_id = job.id ∧ fa.operation_id = op.id ∧
      job.being_processed = false ∧ job.done = false ∧ op.done = false ∧
      op.started = false ∧
      (∀ d, op.deadline = some d → s.current_step ≤ d ∧
        ∀ tm, s.factory_logic.get_task_mode fa.task_mode_id = some tm →
          s.current_step + tm.power.length ≤ d) ∧
      (s.get_steps_until_end_of_day < 50 →
        ∀ tm, s.factory_logic.get_task_mode fa.task_mode_id = some tm →
          tm.power.length ≤ s.get_steps_until_end_of_day) := by
  intro fa hfa
  unfold FactoryState.get_feasible_actions_for_operation at h
  by_cases hA : (job.being_processed || job.done) = true
  · rw [if_pos hA, Option.some_inj] at h
    rw [← h] at hfa
    simp at hfa
  · rw [if_neg hA] at h
    rw [Bool.not_eq_true, Bool.or_eq_false_iff] at hA
    by_cases hB : (op.done || op.started) = true
    · rw [if_pos hB, Option.some_inj] at h
      rw [← h] at hfa
      simp at hfa
    · rw [if_neg hB] at h
      rw [Bool.not_eq_true, Bool.or_eq_false_iff] at hB
      by_cases hC : (match op.deadline with
          | some deadline => decide (deadline < s.current_step)
          | none => false) = true
      · rw [if_pos hC, Option.some_inj] at h
        rw [← h] at hfa
        simp at hfa
      · rw [if_neg hC] at h
        by_cases hD : (s.factory_logic.get_feasible_task_modes machine_id op).isEmpty = true
        · rw [if_pos hD, Option.some_inj] at h
          rw [← h] at hfa
          simp at hfa
        · rw [if_neg hD] at h
          cases hm1 : (match op.deadline with
              | some deadline =>
                filterModesDeadline s.factory_logic s.current_step deadline
                  (s.factory_logic.get_feasible_task_modes machine_id op)
              | none => some (s.factory_logic.get_feasible_task_modes machine_id op)) with
          | none => simp [hm1] at h
          | some modes1 =>
            simp only [hm1] at h
            cases hm2 : (if s.get_steps_until_end_of_day < 50 then
                filterModesEndOfDay s.factory_logic s.get_steps_until_end_of_day modes1
              else some modes1) with
            | none => simp [hm2] at h
            | some modes2 =>
              simp only [hm2, Option.some.injEq] at h
              rw [← h] at hfa
              obtain ⟨mode, hmode, hfaeq⟩ := List.mem_map.mp hfa
              rw [← hfaeq]
              have hmem1 : mode ∈ modes1 := by
                by_cases h50 : s.get_steps_until_end_of_day < 50
                · rw [if_pos h50] at hm2
                  exact (filterModesEndOfDay_sound s.factory_logic _ modes1 modes2
                    hm2 mode hmode).1
                · rw [if_neg h50, Option.some_inj] at hm2
                  rw [← hm2] at hmode
                  exact hmode
              refine ⟨rfl, rfl, rfl, hA.1, hA.2, hB.1, hB.2, ?_, ?_⟩
              · intro d hdl
                rw [hdl] at hC hm1
                simp only [decide_eq_true_eq] at hC
                have hm1d : filterModesDeadline s.factory_logic s.current_step d
                    (s.factory_logic.get_feasible_task_modes machine_id op) =
                    some modes1 := hm1
                constructor
                · omega
                · intro tm htm
                  exact (filterModesDeadline_sound s.factory_logic s.current_step d _
                    modes1 hm1d mode hmem1).2 tm htm
              · intro h50 tm htm
                rw [if_pos h50] at hm2
                exact (filterModesEndOfDay_sound s.factory_logic _ modes1 modes2
                  hm2 mode hmode).2 tm htm

theorem feasibleOverOps_mem (s : FactoryState) (machine_id : String) (job : Job) :
    ∀ (ops : List Operation) (l : List FeasibleAction),
      s.feasibleOverOps machine_id job ops = some l →
      ∀ fa ∈ l, ∃ op ∈ ops, ∃ l2,
        s.get_feasible_actions_for_operation machine_id job op = some l2 ∧ fa ∈ l2 := by
  intro ops
  induction ops with
  | nil =>
    intro l h fa hfa
    simp only [FactoryState.feasibleOverOps, Option.some.injEq] at h
    rw [← h] at hfa
    simp at hfa
  | cons op rest ih =>
    intro l h fa hfa
    cases hhere : s.get_feasible_actions_for_operation machine_id job op with
    | none => simp [FactoryState.feasibleOverOps, hhere] at h
    | some here =>
      cases hthere : s.feasibleOverOps machine_id job rest with
      | none => simp [FactoryState.feasibleOverOps, hhere, hthere] at h
      | some there =>
        have hl : l = here ++ there := by
          simp only [FactoryState.feasibleOverOps, hhere, hthere, Option.some.injEq] at h
          exact h.symm
        rw [hl] at hfa
        rcases List.mem_append.mp hfa with hm | hm
        · exact ⟨op, List.mem_cons_self _ _, here, hhere, hm⟩
        · obtain ⟨op2, hop2, l2, hl2, hfa2⟩ := ih there hthere fa hm
          exact ⟨op2, List.mem_cons_of_mem _ hop2, l2, hl2, hfa2⟩

theorem feasibleOverJobs_mem (s : FactoryState) (machine_id : String) :
    ∀ (jobs : List Job) (l : List FeasibleAction),
      s.feasibleOverJobs machine_id jobs = some l →
      ∀ fa ∈ l, ∃ job ∈ jobs, ∃ l2,
        s.feasibleOverOps machine_id job job.operations = some l2 ∧ fa ∈ l2 := by
  intro jobs
  induction jobs with
  | nil =>
    intro l h fa hfa
    simp only [FactoryState.feasibleOverJobs, Option.some.injEq] at h
    rw [← h] at hfa
    simp at hfa
  | cons job rest ih =>
    intro l h fa hfa
    cases hhere : s.feasibleOverOps machine_id job job.operations with
    | none => simp [FactoryState.feasibleOverJobs, hhere] at h
    | some here =>
      cases hthere : s.feasibleOverJobs machine_id rest with
      | none => simp [FactoryState.feasibleOverJobs, hhere, hthere] at h
      | some there =>
        have hl : l = here ++ there := by
          simp only [FactoryState.feasibleOverJobs, hhere, hthere, Option.some.injEq] at h
          exact h.symm
        rw [hl] at hfa
        rcases List.mem_append.mp hfa with hm | hm
        · exact ⟨job, List.mem_cons_self _ _, here, hhere, hm⟩
        · obtain ⟨job2, hjob2, l2, hl2, hfa2⟩ := ih there hthere fa hm
          exact ⟨job2, List.mem_cons_of_mem _ hjob2, l2, hl2, hfa2⟩

theorem feasibleOverOps_sub (s : FactoryState) (machine_id : String) (job : Job) :
    ∀ (ops : List Operation) (l : List FeasibleAction),
      s.feasibleOverOps machine_id job ops = some l →
      ∀ op ∈ ops, ∃ l2,
        s.get_feasible_actions_for_operation machine_id job op = some l2 ∧
        ∀ fa ∈ l2, fa ∈ l := by
  intro ops
  induction ops with
  | nil =>
    intro l h op hop
    simp at hop
  | cons op0 rest ih =>
    intro l h op hop
    cases hhere : s.get_feasible_actions_for_operation machine_id job op0 with
    | none => simp [FactoryState.feasibleOverOps, hhere] at h
    | some here =>
      cases hthere : s.feasibleOverOps machine_id job rest with
      | none => simp [FactoryState.feasibleOverOps, hhere, hthere] at h
      | some there =>
        have hl : l = here ++ there := by
          simp only [FactoryState.feasibleOverOps, hhere, hthere, Option.some.injEq] at h
          exact h.symm
        rcases List.mem_cons.mp hop with rfl | hop2
        · exact ⟨here, hhere, fun fa hfa => hl ▸ List.mem_append_left there hfa⟩
        · obtain ⟨l2, hl2, hsub⟩ := ih there hthere op hop2
          exact ⟨l2, hl2, fun fa hfa => hl ▸ List.mem_append_right here (hsub fa hfa)⟩

theorem feasibleOverJobs_sub (s : FactoryState) (machine_id : String) :
    ∀ (jobs : List Job) (l : List FeasibleAction),
      s.feasibleOverJobs machine_id jobs = some l →
      ∀ job ∈ jobs, ∃ l2,
        s.feasibleOverOps machine_id job job.operations = some l2 ∧
        ∀ fa ∈ l2, fa ∈ l := by
  intro jobs
  induction jobs with
  | nil =>
    intro l h job hjob
    simp at hjob
  | cons job0 rest ih =>
    intro l h job hjob
    cases hhere : s.feasibleOverOps machine_id job0 job0.operations with
    | none => simp [FactoryState.feasibleOverJobs, hhere] at h
    | some here =>
      cases hthere : s.feasibleOverJobs machine_id rest with
      | none => simp [FactoryState.feasibleOverJobs, hhere, hthere] at h
      | some there =>
        have hl : l = here ++ there := by
          simp only [FactoryState.feasibleOverJobs, hhere, hthere, Option.some.injEq] at h
          exact h.symm
        rcases List.mem_cons.mp hjob with rfl | hjob2
        · exact ⟨here, hhere, fun fa hfa => hl ▸ List.mem_append_left there hfa⟩
        · obtain ⟨l2, hl2, hsub⟩ := ih there hthere job hjob2
          exact ⟨l2, hl2, fun fa hfa => hl ▸ List.mem_append_right here (hsub fa hfa)⟩

/-- For a deadline-free operation passing all status checks, with at
least 50 steps left in the day, the per-operation feasibility emits one
action per catalog-feasible mode — no length filter applies. -/
theorem feasible_for_operation_eod_complete (s : FactoryState) (machine_id : String)
    (job : Job) (op : Operation) (mode : String)
    (hbp : job.being_processed = false) (hjd : job.done = false)
    (hod : op.done = false) (hos : op.started = false) (hdl : op.deadline = none)
    (hmode : mode ∈ s.factory_logic.get_feasible_task_modes machine_id op)
    (h50 : 50 ≤ s.get_steps_until_end_of_day) :
    s.get_feasible_actions_for_operation machine_id job op =
      some ((s.factory_logic.get_feasible_task_modes machine_id op).map
        (fun task_mode_id =>
          { machine_id := machine_id, job_id := job.id, operation_id := op.id,
            task_mode_id := task_mode_id })) ∧
    ({ machine_id := machine_id, job_id := job.id, operation_id := op.id,
       task_mode_id := mode } : FeasibleAction) ∈
      (s.factory_logic.get_feasible_task_modes machine_id op).map
        (fun task_mode_id =>
          { machine_id := machine_id, job_id := job.id, operation_id := op.id,
            task_mode_id := task_mode_id }) := by
  constructor
  · have hne : (s.factory_logic.get_feasible_task_modes machine_id op).isEmpty = false := by
      cases hl : s.factory_logic.get_feasible_task_modes machine_id op with
      | nil => rw [hl] at hmode; simp at hmode
      | cons a rest => rfl
    have h50f : ¬ (s.get_steps_until_end_of_day < 50) := by omega
    simp [FactoryState.get_feasible_actions_for_operation, hbp, hjd, hod, hos, hdl,
      hne, h50f]
  · exact List.mem_map.mpr ⟨mode, hmode, rfl⟩

/-- C3: a feasible action is only emitted for an operation whose deadline
(when set) has not passed, and every emitted action's mode fits before
the deadline: `current_step + duration ≤ deadline`; an operation whose
deadline has passed yields no feasible action at all. -/
theorem feasible_actions_deadline (s : FactoryState) (machine_id : String) :
    (∀ job op l, s.get_feasible_actions_for_operation machine_id job op = some l →
      ∀ d, op.deadline = some d → d < s.current_step → l = []) ∧
    (∀ acts, s.get_feasible_actions machine_id = some acts →
      ∀ fa ∈ acts, ∃ job ∈ s.jobs, ∃ op ∈ job.operations,
        fa.job_id = job.id ∧ fa.operation_id = op.id ∧
        ∀ d, op.deadline = some d →
          s.current_step ≤ d ∧
          ∀ tm, s.factory_logic.get_task_mode fa.task_mode_id = some tm →
            s.current_step + tm.power.length ≤ d) := by
  constructor
  · intro job op l h d hdl hlt
    unfold FactoryState.get_feasible_actions_for_operation at h
    by_cases hA : (job.being_processed || job.done) = true
    · rw [if_pos hA, Option.some_inj] at h
      exact h.symm
    · rw [if_neg hA] at h
      by_cases hB : (op.done || op.started) = true
      · rw [if_pos hB, Option.some_inj] at h
        exact h.symm
      · rw [if_neg hB] at h
        have hC : (match op.deadline with
            | some deadline => decide (deadline < s.current_step)
            | none => false) = true := by
          rw [hdl]
          simpa using hlt
        rw [if_pos hC, Option.some_inj] at h
        exact h.symm
  · intro acts hacts fa hfa
    unfold FactoryState.get_feasible_actions at hacts
    by_cases hbusy : s.is_machine_busy machine_id = true
    · rw [if_pos hbusy, Option.some_inj] at hacts
      rw [← hacts] at hfa
      simp at hfa
    · rw [if_neg hbusy] at hacts
      obtain ⟨job, hjob, l2, hl2, hfa2⟩ :=
        feasibleOverJobs_mem s machine_id s.jobs acts hacts fa hfa
      obtain ⟨op, hop, l3, hl3, hfa3⟩ :=
        feasibleOverOps_mem s machine_id job job.operations l2 hl2 fa hfa2
      have hs := feasible_for_operation_sound s machine_id job op l3 hl3 fa hfa3
      exact ⟨job, hjob, op, hop, hs.2.1, hs.2.2.1, hs.2.2.2.2.2.2.2.1⟩

/-- C3 witness: at step 0 with deadline 10 the single-step mode `TMS` is
emitted and satisfies `0 + 1 ≤ 10`. -/
theorem feasible_actions_deadline_witness :
    ∃ job ∈ Fixture.stateC3.jobs, ∃ op ∈ job.operations,
      ({ machine_id := "M2", job_id := "J5", operation_id := "O5",
         task_mode_id := "TMS" } : FeasibleAction).job_id = job.id ∧
      ({ machine_id := "M2", job_id := "J5", operation_id := "O5",
         task_mode_id := "TMS" } : FeasibleAction).operation_id = op.id ∧
      ∀ d, op.deadline = some d →
        Fixture.stateC3.current_step ≤ d ∧
        ∀ tm, Fixture.stateC3.factory_logic.get_task_mode
            ({ machine_id := "M2", job_id := "J5", operation_id := "O5",
               task_mode_id := "TMS" } : FeasibleAction).task_mode_id = some tm →
          Fixture.stateC3.current_step + tm.power.length ≤ d :=
  (feasible_actions_deadline Fixture.stateC3 "M2").2
    [{ machine_id := "M2", job_id := "J5", operation_id := "O5", task_mode_id := "TMS" }]
    (by decide) _ (by decide)

/-- C5: when fewer than 50 steps remain in the day every emitted action's
mode fits in the remaining day (`duration ≤ steps_until_end_of_day`);
when at least 50 remain, a deadline-free catalog-feasible mode is emitted
even if its duration exceeds the remaining day. -/
theorem feasible_actions_end_of_day (s : FactoryState) (machine_id : String) :
    (∀ acts, s.get_feasible_actions machine_id = some acts →
      s.get_steps_until_end_of_day < 50 →
      ∀ fa ∈ acts, ∀ tm, s.factory_logic.get_task_mode fa.task_mode_id = some tm →
        tm.power.length ≤ s.get_steps_until_end_of_day) ∧
    (∀ acts job op mode tm, s.get_feasible_actions machine_id = some acts →
      50 ≤ s.get_steps_until_end_of_day →
      s.is_machine_busy machine_id = false →
      job ∈ s.jobs → op ∈ job.operations →
      job.being_processed = false → job.done = false →
      op.done = false → op.started = false → op.deadline = none →
      mode ∈ s.factory_logic.get_feasible_task_modes machine_id op →
      s.factory_logic.get_task_mode mode = some tm →
      s.get_steps_until_end_of_day < tm.power.length →
      ({ machine_id := machine_id, job_id := job.id, operation_id := op.id,
         task_mode_id := mode } : FeasibleAction) ∈ acts) := by
  constructor
  · intro acts hacts h50 fa hfa tm htm
    unfold FactoryState.get_feasible_actions at hacts
    by_cases hbusy : s.is_machine_busy machine_id = true
    · rw [if_pos hbusy, Option.some_inj] at hacts
      rw [← hacts] at hfa
      simp at hfa
    · rw [if_neg hbusy] at hacts
      obtain ⟨job, hjob, l2, hl2, hfa2⟩ :=
        feasibleOverJobs_mem s machine_id s.jobs acts hacts fa hfa
      obtain ⟨op, hop, l3, hl3, hfa3⟩ :=
        feasibleOverOps_mem s machine_id job job.operations l2 hl2 fa hfa2
      have hs := feasible_for_operation_sound s machine_id job op l3 hl3 fa hfa3
      exact hs.2.2.2.2.2.2.2.2 h50 tm htm
  · intro acts job op mode tm hacts h50 hbusy hjob hop hbp hjd hod hos hdl hmode htm hlong
    unfold FactoryState.get_feasible_actions at hacts
    rw [if_neg (by rw [hbusy]; exact Bool.false_ne_true)] at hacts
    obtain ⟨l2, hl2, hsub2⟩ := feasibleOverJobs_sub s machine_id s.jobs acts hacts job hjob
    obtain ⟨l3, hl3, hsub3⟩ :=
      feasibleOverOps_sub s machine_id job job.operations l2 hl2 op hop
    obtain ⟨hcomp, hmem⟩ :=
      feasible_for_operation_eod_complete s machine_id job op mode hbp hjd hod hos hdl
        hmode h50
    rw [hl3, Option.some_inj] at hcomp
    rw [← hcomp] at hmem
    exact hsub2 _ (hsub3 _ hmem)

/-- C5 witness: at step 150 (42 steps left) the emitted 1-step mode fits
in the day; at step 140 (52 steps left) the 60-step mode `TML` is still
emitted although it overruns the day. -/
theorem feasible_actions_end_of_day_witness :
    Fixture.tmS.power.length ≤ Fixture.stateC5b.get_steps_until_end_of_day ∧
    ({ machine_id := "M3", job_id := "J6", operation_id := "O6",
       task_mode_id := "TML" } : FeasibleAction) ∈
      [({ machine_id := "M3", job_id := "J6", operation_id := "O6",
          task_mode_id := "TML" } : FeasibleAction)] :=
  ⟨(feasible_actions_end_of_day Fixture.stateC5b "M2").1
      [{ machine_id := "M2", job_id := "J7", operation_id := "O7", task_mode_id := "TMS" }]
      (by decide) (by decide)
      { machine_id := "M2", job_id := "J7", operation_id := "O7", task_mode_id := "TMS" }
      (by decide) Fixture.tmS (by decide),
   (feasible_actions_end_of_day Fixture.stateC5a "M3").2
      [{ machine_id := "M3", job_id := "J6", operation_id := "O6", task_mode_id := "TML" }]
      Fixture.longJob (Fixture.freshOp "O6" "T3" none) "TML" Fixture.tmL
      (by decide) (by decide) (by decide) (by decide) (by decide) (by decide) (by decide)
      (by decide) (by decide) (by decide) (by decide) (by decide) (by decide)⟩

/-! ## C7: no job claimed by two machines in one choose call -/

theorem choose_greedy_action_job (g : GreedyScheduler) (s : FactoryState)
    (machine_id : String) (l : List FeasibleAction) (a : Action)
    (h : g.choose_greedy_action_for_machine s machine_id l = some (some a)) :
    ∃ fa ∈ l, a.job_id = fa.job_id := by
  by_cases hemp : l.isEmpty = true
  · have heval : g.choose_greedy_action_for_machine s machine_id l = some none := by
      simp [GreedyScheduler.choose_greedy_action_for_machine, hemp]
    rw [heval] at h
    simp at h
  · rw [Bool.not_eq_true] at hemp
    cases h1 : g.greedy_type == "min_power" with
    | true =>
      cases hmin : pyMinBy (powerKey s) l with
      | none =>
        have heval : g.choose_greedy_action_for_machine s machine_id l = none := by
          simp [GreedyScheduler.choose_greedy_action_for_machine, hemp, h1, hmin]
        rw [heval] at h
        exact Option.noConfusion h
      | some fa0 =>
        cases htm : s.factory_logic.get_task_mode fa0.task_mode_id with
        | none =>
          have heval : g.choose_greedy_action_for_machine s machine_id l = none := by
            simp [GreedyScheduler.choose_greedy_action_for_machine, hemp, h1, hmin, htm]
          rw [heval] at h
          exact Option.noConfusion h
        | some tm =>
          have heval : g.choose_greedy_action_for_machine s machine_id l =
              some (some
                { machine_id := machine_id, job_id := fa0.job_id
                  operation_id := fa0.operation_id, task_mode_id := fa0.task_mode_id
                  start_step := s.current_step
                  end_step := s.current_step + tm.power.length }) := by
            simp [GreedyScheduler.choose_greedy_action_for_machine, hemp, h1, hmin, htm]
          rw [heval] at h
          simp only [Option.some.injEq] at h
          exact ⟨fa0, pyMinBy_mem _ l fa0 hmin, by rw [← h]⟩
    | false =>
      cases h2 : g.greedy_type == "min_steps" with
      | true =>
        cases hmin : pyMinBy (stepsKey s) l with
        | none =>
          have heval : g.choose_greedy_action_for_machine s machine_id l = none := by
            simp [GreedyScheduler.choose_greedy_action_for_machine, hemp, h1, h2, hmin]
          rw [heval] at h
          exact Option.noConfusion h
        | some fa0 =>
          cases htm : s.factory_logic.get_task_mode fa0.task_mode_id with
          | none =>
            have heval : g.choose_greedy_action_for_machine s machine_id l = none := by
              simp [GreedyScheduler.choose_greedy_action_for_machine, hemp, h1, h2,
                hmin, htm]
            rw [heval] at h
            exact Option.noConfusion h
          | some tm =>
            have heval : g.choose_greedy_action_for_machine s machine_id l =
                some (some
                  { machine_id := machine_id, job_id := fa0.job_id
                    operation_id := fa0.operation_id, task_mode_id := fa0.task_mode_id
                    start_step := s.current_step
                    end_step := s.current_step + tm.power.length }) := by
              simp [GreedyScheduler.choose_greedy_action_for_machine, hemp, h1, h2,
                hmin, htm]
            rw [heval] at h
            simp only [Option.some.injEq] at h
            exact ⟨fa0, pyMinBy_mem _ l fa0 hmin, by rw [← h]⟩
      | false =>
        cases h3 : g.greedy_type == "max_power" with
        | true =>
          cases hmax : pyMaxBy (powerKey s) l with
          | none =>
            have heval : g.choose_greedy_action_for_machine s machine_id l = none := by
              simp [GreedyScheduler.choose_greedy_action_for_machine, hemp, h1, h2, h3,
                hmax]
            rw [heval] at h
            exact Option.noConfusion h
          | some fa0 =>
            cases htm : s.factory_logic.get_task_mode fa0.task_mode_id with
            | none =>
              have heval : g.choose_greedy_action_for_machine s machine_id l = none := by
                simp [GreedyScheduler.choose_greedy_action_for_machine, hemp, h1, h2, h3,
                  hmax, htm]
              rw [heval] at h
              exact Option.noConfusion h
            | some tm =>
              have heval : g.choose_greedy_action_for_machine s machine_id l =
                  some (some
                    { machine_id := machine_id, job_id := fa0.job_id
                      operation_id := fa0.operation_id, task_mode_id := fa0.task_mode_id
                      start_step := s.current_step
                      end_step := s.current_step + tm.power.length }) := by
                simp [GreedyScheduler.choose_greedy_action_for_machine, hemp, h1, h2, h3,
                  hmax, htm]
              rw [heval] at h
              simp only [Option.some.injEq] at h
              exact ⟨fa0, pyMaxBy_mem _ l fa0 hmax, by rw [← h]⟩
        | false =>
          cases h4 : g.greedy_type == "max_steps" with
          | true =>
            cases hmax : pyMaxBy (stepsKey s) l with
            | none =>
              have heval : g.choose_greedy_action_for_machine s machine_id l = none := by
                simp [GreedyScheduler.choose_greedy_action_for_machine, hemp, h1, h2, h3,
                  h4, hmax]
              rw [heval] at h
              exact Option.noConfusion h
            | some fa0 =>
              cases htm : s.factory_logic.get_task_mode fa0.task_mode_id with
              | none =>
                have heval : g.choose_greedy_action_for_machine s machine_id l =
                    none := by
                  simp [GreedyScheduler.choose_greedy_action_for_machine, hemp, h1, h2,
                    h3, h4, hmax, htm]
                rw [heval] at h
                exact Option.noConfusion h
              | some tm =>
                have heval : g.choose_greedy_action_for_machine s machine_id l =
                    some (some
                      { machine_id := machine_id, job_id := fa0.job_id
                        operation_id := fa0.operation_id
                        task_mode_id := fa0.task_mode_id
                        start_step := s.current_step
                        end_step := s.current_step + tm.power.length }) := by
                  simp [GreedyScheduler.choose_greedy_action_for_machine, hemp, h1, h2,
                    h3, h4, hmax, htm]
                rw [heval] at h
                simp only [Option.some.injEq] at h
                exact ⟨fa0, pyMaxBy_mem _ l fa0 hmax, by rw [← h]⟩
          | false =>
            have heval : g.choose_greedy_action_for_machine s machine_id l =
                some none := by
              simp [GreedyScheduler.choose_greedy_action_for_machine, hemp, h1, h2, h3,
                h4]
            rw [heval] at h
            simp at h

theorem scoreAll_mem (r : RuleBasedScheduler) (s : FactoryState) :
    ∀ (l : List FeasibleAction) (scored : List (FeasibleAction × Score)),
      scoreAll r s l = some scored → ∀ p ∈ scored, p.1 ∈ l := by
  intro l
  induction l with
  | nil =>
    intro scored h p hp
    simp only [scoreAll, Option.some.injEq] at h
    rw [← h] at hp
    simp at hp
  | cons fa rest ih =>
    intro scored h p hp
    cases hjob : s.jobs.find? (fun j => j.id == fa.job_id) with
    | none => simp [scoreAll, hjob] at h
    | some job =>
      cases hsc : r.score_action s job fa with
      | none => simp [scoreAll, hjob, hsc] at h
      | some sc =>
        cases hrest : scoreAll r s rest with
        | none => simp [scoreAll, hjob, hsc, hrest] at h
        | some ps =>
          have hsc2 : scored = (fa, sc) :: ps := by
            simp only [scoreAll, hjob, hsc, hrest, Option.some.injEq] at h
            exact h.symm
          rw [hsc2] at hp
          rcases List.mem_cons.mp hp with rfl | hp2
          · exact List.mem_cons_self _ _
          · exact List.mem_cons_of_mem _ (ih ps hrest p hp2)

theorem select_best_action_mem (r : RuleBasedScheduler) (s : FactoryState)
    (l : List FeasibleAction) (fa : FeasibleAction)
    (h : r.select_best_action s l = some (some fa)) : fa ∈ l := by
  unfold RuleBasedScheduler.select_best_action at h
  by_cases hemp : l.isEmpty = true
  · rw [if_pos hemp] at h
    simp at h
  · rw [if_neg hemp] at h
    cases hsc : scoreAll r s l with
    | none => simp [hsc] at h
    | some scored =>
      simp only [hsc] at h
      cases hmin : pickMinPair scored with
      | none => simp [hmin] at h
      | some p =>
        simp only [hmin, Option.some.injEq] at h
        rw [← h]
        exact scoreAll_mem r s l scored hsc p (pickMinPair_mem scored p hmin)

/-- The accumulator invariant of the greedy per-machine loop: no returned
action's job was already claimed, and no two returned actions share a
job. -/
theorem greedy_choose_loop_sound (g : GreedyScheduler) (s : FactoryState) :
    ∀ (ms used : List String) (res : List (String × Option Action)),
      g.choose_loop s used ms = some res →
      (∀ p ∈ res, ∀ a, p.2 = some a → used.contains a.job_id = false) ∧
      res.Pairwise (fun p q => ∀ a b, p.2 = some a → q.2 = some b →
        a.job_id ≠ b.job_id) := by
  intro ms
  induction ms with
  | nil =>
    intro used res h
    simp only [GreedyScheduler.choose_loop, Option.some.injEq] at h
    rw [← h]
    exact ⟨by simp, List.Pairwise.nil⟩
  | cons machine_id rest ih =>
    intro used res h
    cases hfeas : s.get_feasible_actions machine_id with
    | none =>
      have heval : g.choose_loop s used (machine_id :: rest) = none := by
        simp [GreedyScheduler.choose_loop, hfeas]
      rw [heval] at h
      exact Option.noConfusion h
    | some feasible =>
      cases hemp : (feasible.filter (fun fa => !(used.contains fa.job_id))).isEmpty with
      | true =>
        cases hrest : g.choose_loop s used rest with
        | none =>
          have heval : g.choose_loop s used (machine_id :: rest) = none := by
            simp only [GreedyScheduler.choose_loop, hfeas, hemp, eq_self_iff_true,
              if_true, hrest]
          rw [heval] at h
          exact Option.noConfusion h
        | some res2 =>
          have heval : g.choose_loop s used (machine_id :: rest) =
              some ((machine_id, none) :: res2) := by
            simp only [GreedyScheduler.choose_loop, hfeas, hemp, eq_self_iff_true,
              if_true, hrest]
          rw [heval, Option.some_inj] at h
          obtain ⟨hpart1, hpart2⟩ := ih used res2 hrest
          rw [← h]
          constructor
          · intro p hp a ha
            rcases List.mem_cons.mp hp with rfl | hp2
            · simp at ha
            · exact hpart1 p hp2 a ha
          · refine List.Pairwise.cons ?_ hpart2
            intro q hq a b ha hb
            simp at ha
      | false =>
        cases hact : g.choose_greedy_action_for_machine s machine_id
            (feasible.filter (fun fa => !(used.contains fa.job_id))) with
        | none =>
          have heval : g.choose_loop s used (machine_id :: rest) = none := by
            simp only [GreedyScheduler.choose_loop, hfeas, hemp, Bool.false_eq_true,
              if_false, hact]
          rw [heval] at h
          exact Option.noConfusion h
        | some oa =>
          cases oa with
          | none =>
            cases hrest : g.choose_loop s used rest with
            | none =>
              have heval : g.choose_loop s used (machine_id :: rest) = none := by
                simp only [GreedyScheduler.choose_loop, hfeas, hemp, Bool.false_eq_true,
                  if_false, hact, hrest]
              rw [heval] at h
              exact Option.noConfusion h
            | some res2 =>
              have heval : g.choose_loop s used (machine_id :: rest) =
                  some ((machine_id, none) :: res2) := by
                simp only [GreedyScheduler.choose_loop, hfeas, hemp, Bool.false_eq_true,
                  if_false, hact, hrest]
              rw [heval, Option.some_inj] at h
              obtain ⟨hpart1, hpart2⟩ := ih used res2 hrest
              rw [← h]
              constructor
              · intro p hp a ha
                rcases List.mem_cons.mp hp with rfl | hp2
                · simp at ha
                · exact hpart1 p hp2 a ha
              · refine List.Pairwise.cons ?_ hpart2
                intro q hq a b ha hb
                simp at ha
          | some chosen =>
            cases hrest : g.choose_loop s (chosen.job_id :: used) rest with
            | none =>
              have heval : g.choose_loop s used (machine_id :: rest) = none := by
                simp only [GreedyScheduler.choose_loop, hfeas, hemp, Bool.false_eq_true,
                  if_false, hact, hrest]
              rw [heval] at h
              exact Option.noConfusion h
            | some res2 =>
              have heval : g.choose_loop s used (machine_id :: rest) =
                  some ((machine_id, some chosen) :: res2) := by
                simp only [GreedyScheduler.choose_loop, hfeas, hemp, Bool.false_eq_true,
                  if_false, hact, hrest]
              rw [heval, Option.some_inj] at h
              obtain ⟨hpart1, hpart2⟩ := ih (chosen.job_id :: used) res2 hrest
              obtain ⟨fa, hfa, hjob⟩ :=
                choose_greedy_action_job g s machine_id _ chosen hact
              have hfa2 := List.mem_filter.mp hfa
              have hnotused : used.contains chosen.job_id = false := by
                rw [hjob]
                have h2 := hfa2.2
                revert h2
                cases used.contains fa.job_id <;> simp
              rw [← h]
              constructor
              · intro p hp a ha
                rcases List.mem_cons.mp hp with rfl | hp2
                · simp only [Option.some.injEq] at ha
                  rw [← ha]
                  exact hnotused
                · have h3 := hpart1 p hp2 a ha
                  revert h3
                  simp only [List.contains_cons]
                  cases hx1 : (a.job_id == chosen.job_id) <;>
                    cases hx2 : used.contains a.job_id <;> simp
              · refine List.Pairwise.cons ?_ hpart2
                intro q hq a b ha hb
                simp only [Option.some.injEq] at ha
                have hbused := hpart1 q hq b hb
                rw [← ha]
                simp only [List.contains_cons] at hbused
                intro heq
                rw [heq] at hbused
                simp at hbused

/-- The accumulator invariant of the rule-based per-machine loop. -/
theorem rulebased_choose_loop_sound (r : RuleBasedScheduler) (s : FactoryState) :
    ∀ (ms claimed : List String) (res : List (String × Option Action)),
      r.choose_loop s claimed ms = some res →
      (∀ p ∈ res, ∀ a, p.2 = some a → claimed.contains a.job_id = false) ∧
      res.Pairwise (fun p q => ∀ a b, p.2 = some a → q.2 = some b →
        a.job_id ≠ b.job_id) := by
  intro ms
  induction ms with
  | nil =>
    intro claimed res h
    simp only [RuleBasedScheduler.choose_loop, Option.some.injEq] at h
    rw [← h]
    exact ⟨by simp, List.Pairwise.nil⟩
  | cons machine_id rest ih =>
    intro claimed res h
    cases hfeas : s.get_feasible_actions machine_id with
    | none =>
      have heval : r.choose_loop s claimed (machine_id :: rest) = none := by
        simp [RuleBasedScheduler.choose_loop, hfeas]
      rw [heval] at h
      exact Option.noConfusion h
    | some feasible =>
      cases hemp :
          (feasible.filter (fun fa => !(claimed.contains fa.job_id))).isEmpty with
      | true =>
        cases hrest : r.choose_loop s claimed rest with
        | none =>
          have heval : r.choose_loop s claimed (machine_id :: rest) = none := by
            simp only [RuleBasedScheduler.choose_loop, hfeas, hemp, eq_self_iff_true,
              if_true, hrest]
          rw [heval] at h
          exact Option.noConfusion h
        | some res2 =>
          have heval : r.choose_loop s claimed (machine_id :: rest) =
              some ((machine_id, none) :: res2) := by
            simp only [RuleBasedScheduler.choose_loop, hfeas, hemp, eq_self_iff_true,
              if_true, hrest]
          rw [heval, Option.some_inj] at h
          obtain ⟨hpart1, hpart2⟩ := ih claimed res2 hrest
          rw [← h]
          constructor
          · intro p hp a ha
            rcases List.mem_cons.mp hp with rfl | hp2
            · simp at ha
            · exact hpart1 p hp2 a ha
          · refine List.Pairwise.cons ?_ hpart2
            intro q hq a b ha hb
            simp at ha
      | false =>
        cases hact : r.select_best_action s
            (feasible.filter (fun fa => !(claimed.contains fa.job_id))) with
        | none =>
          have heval : r.choose_loop s claimed (machine_id :: rest) = none := by
            simp only [RuleBasedScheduler.choose_loop, hfeas, hemp, Bool.false_eq_true,
              if_false, hact]
          rw [heval] at h
          exact Option.noConfusion h
        | some oa =>
          cases oa with
          | none =>
            cases hrest : r.choose_loop s claimed rest with
            | none =>
              have heval : r.choose_loop s claimed (machine_id :: rest) = none := by
                simp only [RuleBasedScheduler.choose_loop, hfeas, hemp,
                  Bool.false_eq_true, if_false, hact, hrest]
              rw [heval] at h
              exact Option.noConfusion h
            | some res2 =>
              have heval : r.choose_loop s claimed (machine_id :: rest) =
                  some ((machine_id, none) :: res2) := by
                simp only [RuleBasedScheduler.choose_loop, hfeas, hemp,
                  Bool.false_eq_true, if_false, hact, hrest]
              rw [heval, Option.some_inj] at h
              obtain ⟨hpart1, hpart2⟩ := ih claimed res2 hrest
              rw [← h]
              constructor
              · intro p hp a ha
                rcases List.mem_cons.mp hp with rfl | hp2
                · simp at ha
                · exact hpart1 p hp2 a ha
              · refine List.Pairwise.cons ?_ hpart2
                intro q hq a b ha hb
                simp at ha
          | some best_feasible =>
            cases htm : s.factory_logic.get_task_mode best_feasible.task_mode_id with
            | none =>
              have heval : r.choose_loop s claimed (machine_id :: rest) = none := by
                simp only [RuleBasedScheduler.choose_loop, hfeas, hemp,
                  Bool.false_eq_true, if_false, hact, htm]
              rw [heval] at h
              exact Option.noConfusion h
            | some task_mode =>
              cases hrest : r.choose_loop s (best_feasible.job_id :: claimed) rest with
              | none =>
                have heval : r.choose_loop s claimed (machine_id :: rest) = none := by
                  simp only [RuleBasedScheduler.choose_loop, hfeas, hemp,
                    Bool.false_eq_true, if_false, hact, htm, hrest]
                rw [heval] at h
                exact Option.noConfusion h
              | some res2 =>
                have heval : r.choose_loop s claimed (machine_id :: rest) =
                    some ((machine_id, some
                      { machine_id := machine_id, job_id := best_feasible.job_id
                        operation_id := best_feasible.operation_id
                        task_mode_id := best_feasible.task_mode_id
                        start_step := s.current_step
                        end_step := s.current_step + task_mode.power.length }) ::
                      res2) := by
                  simp only [RuleBasedScheduler.choose_loop, hfeas, hemp,
                    Bool.false_eq_true, if_false, hact, htm, hrest]
                rw [heval, Option.some_inj] at h
                obtain ⟨hpart1, hpart2⟩ :=
                  ih (best_feasible.job_id :: claimed) res2 hrest
                have hfa := select_best_action_mem r s _ best_feasible hact
                have hfa2 := List.mem_filter.mp hfa
                have hnotused : claimed.contains best_feasible.job_id = false := by
                  have h2 := hfa2.2
                  revert h2
                  cases claimed.contains best_feasible.job_id <;> simp
                rw [← h]
                constructor
                · intro p hp a ha
                  rcases List.mem_cons.mp hp with rfl | hp2
                  · simp only [Option.some.injEq] at ha
                    rw [← ha]
                    exact hnotused
                  · have h3 := hpart1 p hp2 a ha
                    revert h3
                    simp only [List.contains_cons]
                    cases hx1 : (a.job_id == best_feasible.job_id) <;>
                      cases hx2 : claimed.contains a.job_id <;> simp
                · refine List.Pairwise.cons ?_ hpart2
                  intro q hq a b ha hb
                  simp only [Option.some.injEq] at ha
                  have hbused := hpart1 q hq b hb
                  rw [← ha]
                  simp only [List.contains_cons] at hbused
                  intro heq
                  rw [← heq] at hbused
                  simp at hbused

/-- C7: within one `choose` call neither the Greedy nor the Rule-Based
scheduler returns actions for two different machines carrying the same
job id — a job claimed by one machine is excluded from every later
machine's candidates. -/
theorem schedulers_unique_job_per_call :
    (∀ (g : GreedyScheduler) (s : FactoryState) (res : List (String × Option Action)),
      g.choose s = some res →
      ∀ m1 a1 m2 a2, (m1, some a1) ∈ res → (m2, some a2) ∈ res → m1 ≠ m2 →
        a1.job_id ≠ a2.job_id) ∧
    (∀ (r : RuleBasedScheduler) (s : FactoryState) (res : List (String × Option Action)),
      r.choose s = some res →
      ∀ m1 a1 m2 a2, (m1, some a1) ∈ res → (m2, some a2) ∈ res → m1 ≠ m2 →
        a1.job_id ≠ a2.job_id) := by
  have hsym : Symmetric (fun (p q : String × Option Action) =>
      ∀ a b, p.2 = some a → q.2 = some b → a.job_id ≠ b.job_id) := by
    intro p q hpq a b hqa hpb
    exact (hpq b a hpb hqa).symm
  constructor
  · intro g s res h m1 a1 m2 a2 h1 h2 hne
    unfold GreedyScheduler.choose at h
    by_cases hjobs : s.jobs.isEmpty = true
    · rw [if_pos hjobs, Option.some_inj] at h
      rw [← h] at h1
      simp at h1
    · rw [if_neg hjobs] at h
      have hpair := (greedy_choose_loop_sound g s s.machine_ids [] res h).2
      exact hpair.forall hsym h1 h2
        (fun heq => hne (congrArg Prod.fst heq)) a1 a2 rfl rfl
  · intro r s res h m1 a1 m2 a2 h1 h2 hne
    unfold RuleBasedScheduler.choose at h
    by_cases hjobs : s.jobs.isEmpty = true
    · rw [if_pos hjobs, Option.some_inj] at h
      rw [← h] at h1
      simp at h1
    · rw [if_neg hjobs] at h
      have hpair := (rulebased_choose_loop_sound r s s.machine_ids [] res h).2
      exact hpair.forall hsym h1 h2
        (fun heq => hne (congrArg Prod.fst heq)) a1 a2 rfl rfl

/-- C7 witness: on the two-machine two-job state, both schedulers give
`J1` to `M2` and `J2` to `M4`; the two claimed job ids differ. -/
theorem schedulers_unique_job_per_call_witness :
    Fixture.chosenA1.job_id ≠ Fixture.chosenA2.job_id ∧
    Fixture.chosenA1.job_id ≠ Fixture.chosenA2.job_id :=
  ⟨schedulers_unique_job_per_call.1 { greedy_type := "min_steps" } Fixture.stateC7
     [("M2", some Fixture.chosenA1), ("M4", some Fixture.chosenA2)]
     (by decide) "M2" Fixture.chosenA1 "M4" Fixture.chosenA2
     (by decide) (by decide) (by decide),
   schedulers_unique_job_per_call.2
     { urgent_window := 48, caution_window := 96, prefer_low_power := true }
     Fixture.stateC7
     [("M2", some Fixture.chosenA1), ("M4", some Fixture.chosenA2)]
     (by decide) "M2" Fixture.chosenA1 "M4" Fixture.chosenA2
     (by decide) (by decide) (by decide)⟩

/-! ## C8: rule-based scoring and determinism -/

/-- C8 counterexample: the claim says the scoring tuple ending in
`operation_id` is a total order on the feasible actions ranked for a
machine — no two distinct candidates compare equal.  On machine `M1` the
two distinct candidates `TMA`/`TMB` for operation `O1` (identical power
sequences) receive identical score tuples. -/
theorem rulebased_score_tie_cex :
    Fixture.stateC8.get_feasible_actions "M1" = some [Fixture.c8faA, Fixture.c8faB] ∧
    Fixture.c8faA ≠ Fixture.c8faB ∧
    RuleBasedScheduler.score_action Fixture.rbCfg Fixture.stateC8 Fixture.c8Job
      Fixture.c8faA =
    RuleBasedScheduler.score_action Fixture.rbCfg Fixture.stateC8 Fixture.c8Job
      Fixture.c8faB :=
  ⟨by decide, by decide, rfl⟩

/-- C8 (amended): the rule-based per-machine selection returns a member
of its candidate list whose score tuple is lexicographically minimal
among all scored candidates (the embedding's `choose` is a pure function
of snapshot and configuration, so identical inputs give identical maps);
the tuple is however not a total order on distinct candidates — see the
counterexample — so ties are broken by candidate enumeration order. -/
theorem rulebased_select_min_score (r : RuleBasedScheduler) (s : FactoryState)
    (l : List FeasibleAction) (fa : FeasibleAction)
    (h : r.select_best_action s l = some (some fa)) :
    fa ∈ l ∧ ∃ scored sc, scoreAll r s l = some scored ∧ (fa, sc) ∈ scored ∧
      ∀ q ∈ scored, sc ≤ q.2 := by
  refine ⟨select_best_action_mem r s l fa h, ?_⟩
  unfold RuleBasedScheduler.select_best_action at h
  by_cases hemp : l.isEmpty = true
  · rw [if_pos hemp] at h
    simp at h
  · rw [if_neg hemp] at h
    cases hsc : scoreAll r s l with
    | none => simp [hsc] at h
    | some scored =>
      simp only [hsc] at h
      cases hmin : pickMinPair scored with
      | none => simp [hmin] at h
      | some p =>
        simp only [hmin, Option.some.injEq] at h
        refine ⟨scored, p.2, rfl, ?_, pickMinPair_le scored p hmin⟩
        have hp : (fa, p.2) = p := by
          rw [← h]
        rw [hp]
        exact pickMinPair_mem scored p hmin

/-- C8 witness: with the single candidate `TMA`, the selection returns it
and it belongs to the candidate list. -/
theorem rulebased_select_min_score_witness :
    Fixture.c8faA ∈ [Fixture.c8faA] :=
  (rulebased_select_min_score Fixture.rbCfg Fixture.stateC8 [Fixture.c8faA]
    Fixture.c8faA (by decide)).1

/-! ## C9: genetic algorithm elitism and best-fitness monotonicity -/

theorem foldl_maxFit (l : List Individual) :
    ∀ acc : Individual,
      (l.foldl (fun best y => if best.fitness < y.fitness then y else best) acc = acc ∨
       l.foldl (fun best y => if best.fitness < y.fitness then y else best) acc ∈ l) ∧
      acc.fitness ≤
        (l.foldl (fun best y => if best.fitness < y.fitness then y else best) acc).fitness ∧
      ∀ x ∈ l, x.fitness ≤
        (l.foldl (fun best y => if best.fitness < y.fitness then y else best) acc).fitness := by
  induction l with
  | nil => intro acc; exact ⟨Or.inl rfl, le_refl _, by simp⟩
  | cons y rest ih =>
    intro acc
    simp only [List.foldl_cons]
    by_cases hc : acc.fitness < y.fitness
    · rw [if_pos hc]
      obtain ⟨hm, hle, hall⟩ := ih y
      refine ⟨?_, le_trans hc.le hle, ?_⟩
      · rcases hm with hm | hm
        · rw [hm]; exact Or.inr (List.mem_cons_self _ _)
        · exact Or.inr (List.mem_cons_of_mem _ hm)
      · intro x hx
        rcases List.mem_cons.mp hx with rfl | hx2
        · exact hle
        · exact hall x hx2
    · rw [if_neg hc]
      obtain ⟨hm, hle, hall⟩ := ih acc
      refine ⟨?_, hle, ?_⟩
      · rcases hm with hm | hm
        · exact Or.inl hm
        · exact Or.inr (List.mem_cons_of_mem _ hm)
      · intro x hx
        rcases List.mem_cons.mp hx with rfl | hx2
        · exact le_trans (not_lt.mp hc) hle
        · exact hall x hx2

/-- `max(population, key=fitness)` returns a member dominating every
member. -/
theorem maxByFitness_spec (l : List Individual) (b : Individual)
    (h : maxByFitness l = some b) : b ∈ l ∧ ∀ x ∈ l, x.fitness ≤ b.fitness := by
  cases l with
  | nil => simp [maxByFitness] at h
  | cons x rest =>
    simp only [maxByFitness, Option.some.injEq] at h
    obtain ⟨hm, hle, hall⟩ := foldl_maxFit rest x
    constructor
    · rw [← h]
      rcases hm with hm2 | hm2
      · rw [hm2]; exact List.mem_cons_self _ _
      · exact List.mem_cons_of_mem _ hm2
    · intro z hz
      rw [← h]
      rcases List.mem_cons.mp hz with rfl | hz2
      · exact hle
      · exact hall z hz2

/-- A non-empty list sorts to a list whose head dominates every element
of the original list. -/
theorem sortByFitness_head_max (l : List Individual) :
    l ≠ [] → ∃ y ys, sortByFitness l = y :: ys ∧ ∀ x ∈ l, x.fitness ≤ y.fitness := by
  induction l with
  | nil => intro hne; exact absurd rfl hne
  | cons x xs ih =>
    intro hne
    by_cases hxs : xs = []
    · subst hxs
      refine ⟨x, [], by simp [sortByFitness, insertByFitness], ?_⟩
      intro z hz
      rcases List.mem_cons.mp hz with rfl | hz2
      · exact le_refl _
      · simp at hz2
    · obtain ⟨y, ys, hsort, hall⟩ := ih hxs
      by_cases hc : fitnessGe y x = true
      · refine ⟨y, insertByFitness x ys, ?_, ?_⟩
        · simp only [sortByFitness, hsort, insertByFitness, hc, eq_self_iff_true,
            if_true]
        · intro z hz
          rcases List.mem_cons.mp hz with rfl | hz2
          · simp only [fitnessGe, decide_eq_true_eq] at hc
            exact hc
          · exact hall z hz2
      · rw [Bool.not_eq_true] at hc
        have hlt : y.fitness < x.fitness := by
          simp only [fitnessGe, decide_eq_false_iff_not, not_le] at hc
          exact hc
        refine ⟨x, y :: ys, ?_, ?_⟩
        · simp only [sortByFitness, hsort, insertByFitness, hc, Bool.false_eq_true,
            if_false]
        · intro z hz
          rcases List.mem_cons.mp hz with rfl | hz2
          · exact le_refl _
          · exact le_trans (hall z hz2) hlt.le

/-- Elitism: with at least one elite slot, every member of the old
population is dominated by some member of the next population (the
retained best individual). -/
theorem next_population_dominates (g : GeneticScheduler) (child : Nat → Individual)
    (population pop2 : List Individual)
    (helit : 1 ≤ g.elitism_count)
    (h : g.next_population child population = some pop2) :
    ∀ x ∈ population, ∃ y ∈ pop2, x.fitness ≤ y.fitness := by
  intro x hx
  unfold GeneticScheduler.next_population at h
  by_cases hlen : g.elitism_count ≤ population.length
  · rw [if_pos hlen, Option.some_inj] at h
    have hne : population ≠ [] := by
      intro heq
      rw [heq] at hx
      simp at hx
    obtain ⟨y, ys, hsort, hall⟩ := sortByFitness_head_max population hne
    refine ⟨y, ?_, hall x hx⟩
    rw [← h]
    apply List.mem_append_left
    rw [hsort]
    cases hk : g.elitism_count with
    | zero => omega
    | succ k =>
      simp [List.take_cons]
  · rw [if_neg hlen] at h
    exact Option.noConfusion h

/-- Peeling one generation off the front of `populationAt`. -/
theorem populationAt_succ (g : GeneticScheduler) (child : Nat → Nat → Individual)
    (init : List Individual) (gen : Nat) :
    ∀ k, g.populationAt child init gen (k + 1) =
      match g.next_population (child gen) init with
      | none => none
      | some p1 => g.populationAt child p1 (gen + 1) k := by
  intro k
  induction k with
  | zero =>
    simp only [GeneticScheduler.populationAt, Nat.add_zero]
    cases hnp : g.next_population (child gen) init with
    | none => rfl
    | some p1 => rfl
  | succ k2 ih =>
    show (match g.populationAt child init gen (k2 + 1) with
      | none => none
      | some population => g.next_population (child (gen + (k2 + 1))) population) = _
    rw [ih]
    cases hnp : g.next_population (child gen) init with
    | none => rfl
    | some p1 =>
      show (match g.populationAt child p1 (gen + 1) k2 with
        | none => none
        | some population => g.next_population (child (gen + (k2 + 1))) population) = _
      have harith : gen + (k2 + 1) = (gen + 1) + k2 := by omega
      rw [harith]
      rfl

/-- The evolution loop returns a best individual dominating the running
best and every individual of every intermediate population. -/
theorem ga_loop_dominates (g : GeneticScheduler) (child : Nat → Nat → Individual)
    (helit : 1 ≤ g.elitism_count) :
    ∀ (n gen : Nat) (pop : List Individual) (best bf : Individual),
      g.ga_loop child gen n pop best = some bf →
      (∀ x ∈ pop, x.fitness ≤ best.fitness) →
      best.fitness ≤ bf.fitness ∧
      ∀ k, k ≤ n → ∀ p, g.populationAt child pop gen k = some p →
        ∀ ind ∈ p, ind.fitness ≤ bf.fitness := by
  intro n
  induction n with
  | zero =>
    intro gen pop best bf h hdom
    simp only [GeneticScheduler.ga_loop, Option.some.injEq] at h
    refine ⟨h ▸ le_refl _, ?_⟩
    intro k hk p hp ind hind
    have hk0 : k = 0 := by omega
    rw [hk0] at hp
    simp only [GeneticScheduler.populationAt, Option.some.injEq] at hp
    rw [← hp] at hind
    exact le_trans (hdom ind hind) (h ▸ le_refl _)
  | succ n ih =>
    intro gen pop best bf h hdom
    cases hnp : g.next_population (child gen) pop with
    | none =>
      have heval : g.ga_loop child gen (n + 1) pop best = none := by
        simp only [GeneticScheduler.ga_loop, hnp]
      rw [heval] at h
      exact Option.noConfusion h
    | some pop2 =>
      cases hmb : maxByFitness pop2 with
      | none =>
        have heval : g.ga_loop child gen (n + 1) pop best = none := by
          simp only [GeneticScheduler.ga_loop, hnp, hmb]
        rw [heval] at h
        exact Option.noConfusion h
      | some current_best =>
        have heval : g.ga_loop child gen (n + 1) pop best =
            g.ga_loop child (gen + 1) n pop2
              (if best.fitness < current_best.fitness then current_best else best) := by
          simp only [GeneticScheduler.ga_loop, hnp, hmb]
        rw [heval] at h
        obtain ⟨hcbmem, hcball⟩ := maxByFitness_spec pop2 current_best hmb
        have hdom2 : ∀ x ∈ pop2, x.fitness ≤
            (if best.fitness < current_best.fitness then current_best
             else best).fitness := by
          intro x hx
          by_cases hc : best.fitness < current_best.fitness
          · rw [if_pos hc]
            exact hcball x hx
          · rw [if_neg hc]
            exact le_trans (hcball x hx) (not_lt.mp hc)
        have hbb2 : best.fitness ≤
            (if best.fitness < current_best.fitness then current_best
             else best).fitness := by
          by_cases hc : best.fitness < current_best.fitness
          · rw [if_pos hc]
            exact hc.le
          · rw [if_neg hc]
        obtain ⟨h1, h2⟩ := ih (gen + 1) pop2 _ bf h hdom2
        refine ⟨le_trans hbb2 h1, ?_⟩
        intro k hk p hp ind hind
        cases k with
        | zero =>
          simp only [GeneticScheduler.populationAt, Option.some.injEq] at hp
          rw [← hp] at hind
          exact le_trans (hdom ind hind) (le_trans hbb2 h1)
        | succ k2 =>
          rw [populationAt_succ] at hp
          simp only [hnp] at hp
          exact h2 k2 (by omega) p hp ind hind

/-- C9: with at least one elite slot, the maximal fitness of the
population never decreases from one generation to the next (the elitism
step retains the previous best), and the individual whose decoded actions
`schedule` finally returns has fitness ≥ every individual of every
generation's population. -/
theorem genetic_best_fitness_monotone :
    (∀ (g : GeneticScheduler) (child : Nat → Individual)
       (population pop2 : List Individual) (b b2 : Individual),
      1 ≤ g.elitism_count →
      g.next_population child population = some pop2 →
      maxByFitness population = some b → maxByFitness pop2 = some b2 →
      b.fitness ≤ b2.fitness) ∧
    (∀ (g : GeneticScheduler) (jobs : List Job) (init_population : List Individual)
       (child : Nat → Nat → Individual) (acts : List Action),
      1 ≤ g.elitism_count →
      jobs.isEmpty = false →
      g.schedule jobs init_population child = some acts →
      ∃ best : Individual, acts = best.actions ∧
        ∀ k, k ≤ g.generations →
          ∀ p, g.populationAt child init_population 0 k = some p →
            ∀ ind ∈ p, ind.fitness ≤ best.fitness) := by
  constructor
  · intro g child population pop2 b b2 helit hnp hb hb2
    obtain ⟨hbmem, _⟩ := maxByFitness_spec population b hb
    obtain ⟨y, hy, hby⟩ :=
      next_population_dominates g child population pop2 helit hnp b hbmem
    obtain ⟨_, hb2all⟩ := maxByFitness_spec pop2 b2 hb2
    exact le_trans hby (hb2all y hy)
  · intro g jobs init_population child acts helit hjobs h
    unfold GeneticScheduler.schedule at h
    rw [if_neg (by rw [hjobs]; exact Bool.false_ne_true)] at h
    cases hb0 : maxByFitness init_population with
    | none => rw [hb0] at h; exact Option.noConfusion h
    | some b0 =>
      simp only [hb0] at h
      cases hloop : g.ga_loop child 0 g.generations init_population b0 with
      | none => rw [hloop] at h; exact Option.noConfusion h
      | some best =>
        simp only [hloop, Option.some.injEq] at h
        obtain ⟨_, hb0all⟩ := maxByFitness_spec init_population b0 hb0
        obtain ⟨_, hdomall⟩ :=
          ga_loop_dominates g child helit g.generations 0 init_population b0 best
            hloop hb0all
        exact ⟨best, h.symm, fun k hk p hp ind hind => hdomall k hk p hp ind hind⟩

/-- C9 witness: on a two-individual population with one elite slot the
best fitness is preserved across the generation, and the one-generation
run returns the retained best individual's (empty) action list, which
dominates both generations' populations. -/
theorem genetic_best_fitness_monotone_witness :
    Fixture.giB.fitness ≤ Fixture.giB.fitness ∧
    ∃ best : Individual, ([] : List Action) = best.actions ∧
      ∀ k, k ≤ Fixture.gaCfg.generations →
        ∀ p, Fixture.gaCfg.populationAt Fixture.gaChild
            [Fixture.giA, Fixture.giB] 0 k = some p →
          ∀ ind ∈ p, ind.fitness ≤ best.fitness :=
  ⟨genetic_best_fitness_monotone.1 Fixture.gaCfg (Fixture.gaChild 0)
     [Fixture.giA, Fixture.giB] [Fixture.giB, Fixture.giC] Fixture.giB Fixture.giB
     (by decide) (by decide) (by decide) (by decide),
   genetic_best_fitness_monotone.2 Fixture.gaCfg [Fixture.c8Job]
     [Fixture.giA, Fixture.giB] Fixture.gaChild [] (by decide) (by decide) (by decide)⟩

end ProductionLine
